import Mathlib

/-!
Verification of the indentation-sensitive mini-language interpreter
(script parser module, loop mini-game module, snake puzzle).

The development shallowly embeds, faithfully to the JavaScript source:
  * the base `Lexer` / `Parser` / `Executor` (script parser module:
    repeat/if grammar, string and float literals, sequences, an output
    sink and pacing delays), and
  * the mini-game `MiniLexer` / `MiniParser` / `MiniExecutor`
    (for/while/if/elif/else grammar, integer literals, iteration cap),
  * the `SnakePuzzle` grid state.

General recursion (lexer scanning loops, recursive-descent parsing,
tree-walking execution) is modelled with an explicit fuel parameter that
every recursive call decrements; running out of fuel is an explicit
outcome, distinct from every result the JavaScript code can produce.
JavaScript numbers are modelled exactly: lexed numeric literals become
unreduced decimal fractions (integer numerator, power-of-ten
denominator), and Math.floor becomes flooring division.
-/

set_option maxRecDepth 100000

universe u v

/-- Decidable equality for `Except`, used to evaluate concrete runs. -/
instance exceptDecEq {ε : Type u} {α : Type v} [DecidableEq ε] [DecidableEq α] :
    DecidableEq (Except ε α) := fun a b =>
  match a, b with
  | .ok x, .ok y => if h : x = y then .isTrue (by simp [h]) else .isFalse (by simp [h])
  | .error x, .error y => if h : x = y then .isTrue (by simp [h]) else .isFalse (by simp [h])
  | .ok _, .error _ => .isFalse (by simp)
  | .error _, .ok _ => .isFalse (by simp)

/-- JavaScript number produced by `parseFloat`/`parseInt` on a numeric
literal: an unreduced decimal fraction `num / den` with `den` a power of
ten.  The literals the lexers produce are exact in IEEE-754 reasoning
distance of the claims considered here, so an exact fraction is used. -/
structure JsNum where
  num : Int
  den : Nat
deriving DecidableEq, Repr

/-- Mirrors `Math.floor` on a lexed numeric literal: flooring division
(rounds toward negative infinity, exactly like JavaScript Math.floor). -/
def jsFloor (q : JsNum) : Int := Int.fdiv q.num (q.den : Int)

/-- Token kinds.  Union of the two `TokenType` tables in the source; the
base lexer only ever produces the first twelve plus REPEAT/IF, the mini
lexer the first twelve (minus STRING) plus FOR/IN/RANGE/WHILE/IF/ELIF/ELSE. -/
inductive Ty where
  | IDENTIFIER | NUMBER | STRING
  | LPAREN | RPAREN | COLON | COMMA
  | NEWLINE | INDENT | DEDENT | EOF
  | REPEAT | IF
  | FOR | IN | RANGE | WHILE | ELIF | ELSE
deriving DecidableEq, Repr

/-- A token: kind, payload value, and source position (`line`, `col`),
mirroring the `{ type, value, line, col }` objects of both lexers. -/
structure Tok (V : Type) where
  ty : Ty
  val : V
  line : Nat
  col : Nat
deriving DecidableEq, Repr

/-- Payload of a base-lexer token: nothing, a number, or a string
(used both for STRING literals and for identifier/keyword spellings). -/
inductive BVal where
  | none
  | num (q : JsNum)
  | str (s : String)
deriving DecidableEq, Repr

/-- Payload of a mini-lexer token: nothing, an integer (`parseInt`), or
an identifier/keyword spelling. -/
inductive MVal where
  | none
  | int (n : Int)
  | str (s : String)
deriving DecidableEq, Repr

/-- Number of INDENT tokens in a token list. -/
def cntIndent {V : Type} (ts : List (Tok V)) : Nat :=
  ts.countP (fun t => t.ty = Ty.INDENT)

/-- Number of DEDENT tokens in a token list. -/
def cntDedent {V : Type} (ts : List (Tok V)) : Nat :=
  ts.countP (fun t => t.ty = Ty.DEDENT)

/-! ### Character classes (identical in both lexers) -/

def isDigitC (c : Char) : Bool := decide ('0' ≤ c ∧ c ≤ '9')

def isAlphaC (c : Char) : Bool :=
  decide (('a' ≤ c ∧ c ≤ 'z') ∨ ('A' ≤ c ∧ c ≤ 'Z'))

def isAlphaNumC (c : Char) : Bool := isAlphaC c || isDigitC c || c = '_'

/-- ASCII lowercasing of one character (`value.toLowerCase()` applied to
the ASCII identifiers the lexers read). -/
def lowerC (c : Char) : Char :=
  if 'A' ≤ c ∧ c ≤ 'Z' then Char.ofNat (c.toNat + 32) else c

/-! ### Scanning helpers shared by both lexers

Each helper consumes a prefix of the remaining character list and
reports how many characters it consumed (for column tracking). -/

/-- Mirrors `measureIndent`: leading spaces count 1, tabs count 4.
Returns (indent units, characters consumed, rest). -/
def takeIndent : List Char → Nat × Nat × List Char
  | [] => (0, 0, [])
  | c :: cs =>
    if c = ' ' then
      let r := takeIndent cs
      (r.1 + 1, r.2.1 + 1, r.2.2)
    else if c = '\t' then
      let r := takeIndent cs
      (r.1 + 4, r.2.1 + 1, r.2.2)
    else (0, 0, c :: cs)

/-- Mirrors `skipWhitespaceOnLine`: consume spaces and tabs. -/
def skipWs : List Char → Nat × List Char
  | [] => (0, [])
  | c :: cs =>
    if c = ' ' ∨ c = '\t' then
      let r := skipWs cs
      (r.1 + 1, r.2)
    else (0, c :: cs)

/-- Comment skipping: consume characters up to (not including) the next
newline or end of input. -/
def takeComment : List Char → Nat × List Char
  | [] => (0, [])
  | c :: cs =>
    if c = '\n' then (0, c :: cs)
    else
      let r := takeComment cs
      (r.1 + 1, r.2)

/-- Consume a run of decimal digits, returning them (most significant
first), the count consumed, and the rest. -/
def takeDigits : List Char → List Nat × Nat × List Char
  | [] => ([], 0, [])
  | c :: cs =>
    if isDigitC c then
      let r := takeDigits cs
      ((c.toNat - '0'.toNat) :: r.1, r.2.1 + 1, r.2.2)
    else ([], 0, c :: cs)

/-- Numeric value of a digit run. -/
def digitsVal (ds : List Nat) : Nat := ds.foldl (fun a d => a * 10 + d) 0

/-- Consume a run of identifier characters. -/
def takeAlnum : List Char → List Char × Nat × List Char
  | [] => ([], 0, [])
  | c :: cs =>
    if isAlphaNumC c then
      let r := takeAlnum cs
      (c :: r.1, r.2.1 + 1, r.2.2)
    else ([], 0, c :: cs)

/-- String-literal body scanning (base lexer `readString`), starting just
after the opening quote: stops before the closing quote or a newline or
end of input; backslash escapes n, t, backslash and the quote, any other
escaped character stands for itself; a trailing lone backslash appends
nothing (JavaScript peeks the empty string there).
Returns (value characters, characters consumed, rest). -/
def readStrGo (q : Char) : List Char → List Char × Nat × List Char
  | [] => ([], 0, [])
  | c :: cs =>
    if c = q ∨ c = '\n' then ([], 0, c :: cs)
    else if c = '\\' then
      match cs with
      | [] => ([], 1, [])
      | e :: cs' =>
        let ec := if e = 'n' then '\n' else if e = 't' then '\t' else e
        let r := readStrGo q cs'
        (ec :: r.1, r.2.1 + 2, r.2.2)
    else
      let r := readStrGo q cs
      (c :: r.1, r.2.1 + 1, r.2.2)

/-- Dedent emission: pop the indentation stack while it has more than one
entry and its top exceeds the new indent.  Returns (number of pops,
remaining stack) — one DEDENT token is emitted per pop. -/
def popCount : List Nat → Nat → Nat × List Nat
  | a :: b :: rest, indent =>
    if a > indent then
      let r := popCount (b :: rest) indent
      (r.1 + 1, r.2)
    else (0, a :: b :: rest)
  | ind, _ => (0, ind)

/-- End-of-input flush: one DEDENT per indentation level still open,
then EOF (both lexers, `tokenize` tail). -/
def flushToks {V : Type} (v : V) (ind : List Nat) (line col : Nat) : List (Tok V) :=
  List.replicate (ind.length - 1) ⟨Ty.DEDENT, v, line, col⟩ ++ [⟨Ty.EOF, v, line, col⟩]

/-! ### Base lexer (`Lexer.tokenize`, script parser module) -/

/-- Keyword table of the base lexer: repeat, if (case-insensitive). -/
def bKeyword (lowered : String) : Ty :=
  if lowered = "repeat" then Ty.REPEAT
  else if lowered = "if" then Ty.IF
  else Ty.IDENTIFIER

/-- One pass of the base lexer's `tokenize` loop, fuelled.  State:
remaining characters, indentation stack (top first, initially `[0]`),
current line and column, at-line-start flag.  Returns `none` only on
fuel exhaustion; the base lexer itself never fails. -/
def bLexGo : Nat → List Char → List Nat → Nat → Nat → Bool → Option (List (Tok BVal))
  | 0, _, _, _, _, _ => none
  | _+1, [], ind, line, col, _ => some (flushToks BVal.none ind line col)
  | f+1, c :: cs', ind, line, col, true =>
        let ti := takeIndent (c :: cs')
        let indent := ti.1
        let k := ti.2.1
        match ti.2.2 with
        | [] => some (flushToks BVal.none ind line (col + k))
        | d :: rest' =>
          if d = '\n' then
            bLexGo f rest' ind (line + 1) 1 true
          else if d = '#' then
            let tc := takeComment (d :: rest')
            match tc.2 with
            | '\n' :: rest'' => bLexGo f rest'' ind (line + 1) 1 true
            | other => bLexGo f other ind line (col + k + tc.1) true
          else
            let cur := ind.headD 0
            if indent > cur then
              (bLexGo f (d :: rest') (indent :: ind) line (col + k) false).map
                (fun ts => ⟨Ty.INDENT, BVal.none, line, 1⟩ :: ts)
            else if indent < cur then
              let pc := popCount ind indent
              (bLexGo f (d :: rest') pc.2 line (col + k) false).map
                (fun ts => List.replicate pc.1 ⟨Ty.DEDENT, BVal.none, line, 1⟩ ++ ts)
            else
              bLexGo f (d :: rest') ind line (col + k) false
  | f+1, c :: cs', ind, line, col, false =>
        if c = ' ' ∨ c = '\t' then
          let sw := skipWs (c :: cs')
          bLexGo f sw.2 ind line (col + sw.1) false
        else if c = '\n' then
          (bLexGo f cs' ind (line + 1) 1 true).map
            (fun ts => ⟨Ty.NEWLINE, BVal.none, line, col⟩ :: ts)
        else if c = '#' then
          let tc := takeComment (c :: cs')
          bLexGo f tc.2 ind line (col + tc.1) false
        else if c = '(' then
          (bLexGo f cs' ind line (col + 1) false).map
            (fun ts => ⟨Ty.LPAREN, BVal.none, line, col⟩ :: ts)
        else if c = ')' then
          (bLexGo f cs' ind line (col + 1) false).map
            (fun ts => ⟨Ty.RPAREN, BVal.none, line, col⟩ :: ts)
        else if c = ':' then
          (bLexGo f cs' ind line (col + 1) false).map
            (fun ts => ⟨Ty.COLON, BVal.none, line, col⟩ :: ts)
        else if c = ',' then
          (bLexGo f cs' ind line (col + 1) false).map
            (fun ts => ⟨Ty.COMMA, BVal.none, line, col⟩ :: ts)
        else if c = '"' ∨ c = '\'' then
          let rs := readStrGo c cs'
          let afterClose : List Char × Nat :=
            match rs.2.2 with
            | d :: r2 => if d = c then (r2, 1) else (d :: r2, 0)
            | [] => ([], 0)
          (bLexGo f afterClose.1 ind line (col + 1 + rs.2.1 + afterClose.2) false).map
            (fun ts => ⟨Ty.STRING, BVal.str (String.mk rs.1), line, col⟩ :: ts)
        else if isDigitC c ∨ (c = '-' ∧ isDigitC (cs'.headD ' ')) then
          let sp : Bool × List Char × Nat :=
            if c = '-' then (true, cs', 1) else (false, c :: cs', 0)
          let td := takeDigits sp.2.1
          let ip := digitsVal td.1
          match td.2.2 with
          | '.' :: d2 :: r2 =>
            if isDigitC d2 then
              let tf := takeDigits (d2 :: r2)
              let m := tf.1.length
              let mag : Nat := ip * 10 ^ m + digitsVal tf.1
              let v : JsNum := ⟨if sp.1 then -(mag : Int) else (mag : Int), 10 ^ m⟩
              (bLexGo f tf.2.2 ind line (col + sp.2.2 + td.2.1 + 1 + tf.2.1) false).map
                (fun ts => ⟨Ty.NUMBER, BVal.num v, line, col⟩ :: ts)
            else
              let v : JsNum := ⟨if sp.1 then -(ip : Int) else (ip : Int), 1⟩
              (bLexGo f ('.' :: d2 :: r2) ind line (col + sp.2.2 + td.2.1) false).map
                (fun ts => ⟨Ty.NUMBER, BVal.num v, line, col⟩ :: ts)
          | other =>
            let v : JsNum := ⟨if sp.1 then -(ip : Int) else (ip : Int), 1⟩
            (bLexGo f other ind line (col + sp.2.2 + td.2.1) false).map
              (fun ts => ⟨Ty.NUMBER, BVal.num v, line, col⟩ :: ts)
        else if isAlphaC c ∨ c = '_' then
          let ta := takeAlnum (c :: cs')
          let name := String.mk ta.1
          let lowered := String.mk (ta.1.map lowerC)
          (bLexGo f ta.2.2 ind line (col + ta.2.1) false).map
            (fun ts => ⟨bKeyword lowered, BVal.str name, line, col⟩ :: ts)
        else
          bLexGo f cs' ind line (col + 1) false

/-- Mirrors `new Lexer(source).tokenize()` for the base lexer.  The fuel bound
`2 * length + 4` covers every iteration of the scanning loop (each
iteration either consumes a character or leaves line-start mode). -/
def bTokenize (src : String) : Option (List (Tok BVal)) :=
  bLexGo (2 * src.length + 4) src.toList [0] 1 1 true

/-! ### Mini lexer (`MiniLexer.tokenize`, loop mini-game module) -/

/-- Keyword table of the mini lexer. -/
def mKeyword (lowered : String) : Ty :=
  if lowered = "for" then Ty.FOR
  else if lowered = "in" then Ty.IN
  else if lowered = "range" then Ty.RANGE
  else if lowered = "while" then Ty.WHILE
  else if lowered = "if" then Ty.IF
  else if lowered = "elif" then Ty.ELIF
  else if lowered = "else" then Ty.ELSE
  else Ty.IDENTIFIER

/-- Failures of the mini lexer: the inconsistent-indentation
SyntaxError (carrying its line), or fuel exhaustion (never produced by
the JavaScript loop). -/
inductive MLexErr where
  | inconsistentIndent (line : Nat)
  | fuel
deriving DecidableEq, Repr

/-- One pass of `MiniLexer.tokenize`, fuelled.  Differences from the
base lexer: integer-only numbers (`parseInt`), no string literals, the
extended keyword set, and a hard error when a dedent does not land on an
existing indentation level. -/
def mLexGo : Nat → List Char → List Nat → Nat → Nat → Bool → Except MLexErr (List (Tok MVal))
  | 0, _, _, _, _, _ => .error .fuel
  | _+1, [], ind, line, col, _ => .ok (flushToks MVal.none ind line col)
  | f+1, c :: cs', ind, line, col, true =>
        let ti := takeIndent (c :: cs')
        let indent := ti.1
        let k := ti.2.1
        match ti.2.2 with
        | [] => .ok (flushToks MVal.none ind line (col + k))
        | d :: rest' =>
          if d = '\n' then
            mLexGo f rest' ind (line + 1) 1 true
          else if d = '#' then
            let tc := takeComment (d :: rest')
            match tc.2 with
            | '\n' :: rest'' => mLexGo f rest'' ind (line + 1) 1 true
            | other => mLexGo f other ind line (col + k + tc.1) true
          else
            let cur := ind.headD 0
            if indent > cur then
              (mLexGo f (d :: rest') (indent :: ind) line (col + k) false).map
                (fun ts => ⟨Ty.INDENT, MVal.none, line, 1⟩ :: ts)
            else if indent < cur then
              let pc := popCount ind indent
              if pc.2.headD 0 ≠ indent then
                .error (.inconsistentIndent line)
              else
                (mLexGo f (d :: rest') pc.2 line (col + k) false).map
                  (fun ts => List.replicate pc.1 ⟨Ty.DEDENT, MVal.none, line, 1⟩ ++ ts)
            else
              mLexGo f (d :: rest') ind line (col + k) false
  | f+1, c :: cs', ind, line, col, false =>
        if c = ' ' ∨ c = '\t' then
          let sw := skipWs (c :: cs')
          mLexGo f sw.2 ind line (col + sw.1) false
        else if c = '\n' then
          (mLexGo f cs' ind (line + 1) 1 true).map
            (fun ts => ⟨Ty.NEWLINE, MVal.none, line, col⟩ :: ts)
        else if c = '#' then
          let tc := takeComment (c :: cs')
          mLexGo f tc.2 ind line (col + tc.1) false
        else if c = '(' then
          (mLexGo f cs' ind line (col + 1) false).map
            (fun ts => ⟨Ty.LPAREN, MVal.none, line, col⟩ :: ts)
        else if c = ')' then
          (mLexGo f cs' ind line (col + 1) false).map
            (fun ts => ⟨Ty.RPAREN, MVal.none, line, col⟩ :: ts)
        else if c = ':' then
          (mLexGo f cs' ind line (col + 1) false).map
            (fun ts => ⟨Ty.COLON, MVal.none, line, col⟩ :: ts)
        else if c = ',' then
          (mLexGo f cs' ind line (col + 1) false).map
            (fun ts => ⟨Ty.COMMA, MVal.none, line, col⟩ :: ts)
        else if isDigitC c ∨ (c = '-' ∧ isDigitC (cs'.headD ' ')) then
          let sp : Bool × List Char × Nat :=
            if c = '-' then (true, cs', 1) else (false, c :: cs', 0)
          let td := takeDigits sp.2.1
          let n : Int := if sp.1 then -(digitsVal td.1 : Int) else (digitsVal td.1 : Int)
          (mLexGo f td.2.2 ind line (col + sp.2.2 + td.2.1) false).map
            (fun ts => ⟨Ty.NUMBER, MVal.int n, line, col⟩ :: ts)
        else if isAlphaC c ∨ c = '_' then
          let ta := takeAlnum (c :: cs')
          let name := String.mk ta.1
          let lowered := String.mk (ta.1.map lowerC)
          (mLexGo f ta.2.2 ind line (col + ta.2.1) false).map
            (fun ts => ⟨mKeyword lowered, MVal.str name, line, col⟩ :: ts)
        else
          mLexGo f cs' ind line (col + 1) false

/-- Mirrors `new MiniLexer(source).tokenize()`. -/
def mTokenize (src : String) : Except MLexErr (List (Tok MVal)) :=
  mLexGo (2 * src.length + 4) src.toList [0] 1 1 true

/-! ### Token-cursor helpers shared by both parsers -/

/-- Mirrors `this.peek()`: the token at `pos`, or a synthetic EOF token when the
cursor is past the end (JavaScript `|| { type: TokenType.EOF }`, whose
missing position fields are modelled as 0). -/
def peekTok {V : Type} (dflt : V) (toks : List (Tok V)) (pos : Nat) : Tok V :=
  toks.getD pos ⟨Ty.EOF, dflt, 0, 0⟩

/-- Kind of the token at the cursor. -/
def peekTy {V : Type} (dflt : V) (toks : List (Tok V)) (pos : Nat) : Ty :=
  (peekTok dflt toks pos).ty

/-- Length of the run of NEWLINE tokens starting a token list. -/
def nlRun {V : Type} : List (Tok V) → Nat
  | [] => 0
  | t :: ts => if t.ty = Ty.NEWLINE then nlRun ts + 1 else 0

/-- Mirrors `skipNewlines()`: advance the cursor past consecutive NEWLINEs. -/
def skipNLs {V : Type} (toks : List (Tok V)) (pos : Nat) : Nat :=
  pos + nlRun (toks.drop pos)

/-- Parse failures (`SyntaxError`s) of both parsers, structured: the
`expected` constructor carries the message text of `expect` together
with the offending token kind and position; `expectedBlock` carries the
construct keyword of a missing indented block and the line the message
reports; fuel exhaustion is an explicit extra outcome. -/
inductive PErr where
  | expected (msg : String) (got : Ty) (line col : Nat)
  | unexpectedToken (got : Ty) (line : Nat)
  | expectedCondition (line : Nat)
  | expectedBlock (kw : String) (line : Nat)
  | fuel
deriving DecidableEq, Repr

/-- Mirrors `expect(type, errorMsg)`: return the token and advance, or fail with
the offending token's kind and position. -/
def expectT {V : Type} (dflt : V) (toks : List (Tok V)) (pos : Nat) (ty : Ty)
    (msg : String) : Except PErr (Tok V × Nat) :=
  let t := peekTok dflt toks pos
  if t.ty = ty then .ok (t, pos + 1) else .error (.expected msg t.ty t.line t.col)

/-- Numeric payload of a base token (NUMBER tokens). -/
def bNumVal : BVal → JsNum
  | .num q => q
  | _ => ⟨0, 1⟩

/-- String payload of a base token (IDENTIFIER/STRING/keyword tokens). -/
def bStrVal : BVal → String
  | .str s => s
  | _ => ""

/-! ### Base parser AST (`NodeType` of the script parser module) -/

/-- Expressions: argument / condition positions (NUMBER, STRING,
IDENTIFIER and nested CALL nodes). -/
inductive BExpr where
  | num (v : JsNum)
  | str (s : String)
  | ident (name : String)
  | call (name : String) (args : List BExpr) (line : Nat)
deriving Repr

/-- Statements: CALL, SEQUENCE, REPEAT (count already floored at parse
time) and IF. -/
inductive BStmt where
  | call (name : String) (args : List BExpr) (line : Nat)
  | seq (stmts : List BStmt)
  | repeatS (count : Int) (body : List BStmt) (line : Nat)
  | ifS (cond : BExpr) (body : List BStmt) (line : Nat)
deriving Repr

/-! ### Base parser (`Parser`, script parser module)

Each function takes fuel as its first argument and returns the parsed
item together with the new cursor position.  `pStatement` returns an
optional statement: `none` models the JavaScript `null` returned for
skipped/unrecognized tokens.  Error propagation is written as explicit
matches so that the mutual block is compiled by structural recursion on
the fuel (keeping concrete runs kernel-evaluable). -/

mutual

def pStatement : Nat → List (Tok BVal) → Nat → Except PErr (Option BStmt × Nat)
  | 0, _, _ => .error .fuel
  | f+1, toks, pos =>
    match peekTy BVal.none toks pos with
    | Ty.REPEAT => (pRepeat f toks pos).map (fun r => (some r.1, r.2))
    | Ty.IF => (pIf f toks pos).map (fun r => (some r.1, r.2))
    | Ty.IDENTIFIER => (pCallOrSeq f toks pos).map (fun r => (some r.1, r.2))
    | Ty.EOF => .ok (none, pos)
    | Ty.NEWLINE => .ok (none, pos)
    | Ty.DEDENT => .ok (none, pos)
    | _ => .ok (none, pos + 1)
  termination_by structural f => f

def pCallOrSeq : Nat → List (Tok BVal) → Nat → Except PErr (BStmt × Nat)
  | 0, _, _ => .error .fuel
  | f+1, toks, pos =>
    match pCall f toks pos with
    | .error e => .error e
    | .ok (c, p1) =>
      match pCommaChain f toks p1 [BStmt.call c.1 c.2.1 c.2.2] with
      | .error e => .error e
      | .ok ([s], p2) => .ok (s, p2)
      | .ok (calls, p2) => .ok (.seq calls, p2)
  termination_by structural f => f

def pCommaChain : Nat → List (Tok BVal) → Nat → List BStmt →
    Except PErr (List BStmt × Nat)
  | 0, _, _, _ => .error .fuel
  | f+1, toks, pos, acc =>
    if peekTy BVal.none toks pos = Ty.COMMA then
      let p1 := skipNLs toks (pos + 1)
      if peekTy BVal.none toks p1 = Ty.IDENTIFIER ∨
         peekTy BVal.none toks p1 = Ty.REPEAT ∨
         peekTy BVal.none toks p1 = Ty.IF then
        match pStatement f toks p1 with
        | .error e => .error e
        | .ok (s, p2) => pCommaChain f toks p2 (acc ++ s.toList)
      else
        pCommaChain f toks p1 acc
    else .ok (acc, pos)
  termination_by structural f => f

def pCall : Nat → List (Tok BVal) → Nat →
    Except PErr ((String × List BExpr × Nat) × Nat)
  | 0, _, _ => .error .fuel
  | f+1, toks, pos =>
    match expectT BVal.none toks pos Ty.IDENTIFIER "Expected function name" with
    | .error e => .error e
    | .ok (nameTok, p1) =>
      match expectT BVal.none toks p1 Ty.LPAREN "Expected \"(\" after function name" with
      | .error e => .error e
      | .ok (_, p2) =>
        if peekTy BVal.none toks p2 = Ty.RPAREN then
          match expectT BVal.none toks p2 Ty.RPAREN "Expected \")\"" with
          | .error e => .error e
          | .ok (_, p4) => .ok ((bStrVal nameTok.val, [], nameTok.line), p4)
        else
          match pArgument f toks p2 with
          | .error e => .error e
          | .ok (a, pa) =>
            match pArgChain f toks pa [a] with
            | .error e => .error e
            | .ok (args, p3) =>
              match expectT BVal.none toks p3 Ty.RPAREN "Expected \")\"" with
              | .error e => .error e
              | .ok (_, p4) => .ok ((bStrVal nameTok.val, args, nameTok.line), p4)
  termination_by structural f => f

def pArgChain : Nat → List (Tok BVal) → Nat → List BExpr →
    Except PErr (List BExpr × Nat)
  | 0, _, _, _ => .error .fuel
  | f+1, toks, pos, acc =>
    if peekTy BVal.none toks pos = Ty.COMMA then
      match pArgument f toks (pos + 1) with
      | .error e => .error e
      | .ok (a, p1) => pArgChain f toks p1 (acc ++ [a])
    else .ok (acc, pos)
  termination_by structural f => f

def pArgument : Nat → List (Tok BVal) → Nat → Except PErr (BExpr × Nat)
  | 0, _, _ => .error .fuel
  | f+1, toks, pos =>
    let t := peekTok BVal.none toks pos
    match t.ty with
    | Ty.NUMBER => .ok (.num (bNumVal t.val), pos + 1)
    | Ty.STRING => .ok (.str (bStrVal t.val), pos + 1)
    | Ty.IDENTIFIER =>
      if peekTy BVal.none toks (pos + 1) = Ty.LPAREN then
        (pCall f toks pos).map (fun r => (BExpr.call r.1.1 r.1.2.1 r.1.2.2, r.2))
      else .ok (.ident (bStrVal t.val), pos + 1)
    | ty => .error (.unexpectedToken ty t.line)
  termination_by structural f => f

def pCondition : Nat → List (Tok BVal) → Nat → Except PErr (BExpr × Nat)
  | 0, _, _ => .error .fuel
  | f+1, toks, pos =>
    let t := peekTok BVal.none toks pos
    match t.ty with
    | Ty.IDENTIFIER =>
      if peekTy BVal.none toks (pos + 1) = Ty.LPAREN then
        (pCall f toks pos).map (fun r => (BExpr.call r.1.1 r.1.2.1 r.1.2.2, r.2))
      else .ok (.ident (bStrVal t.val), pos + 1)
    | _ => .error (.expectedCondition t.line)

def pRepeat : Nat → List (Tok BVal) → Nat → Except PErr (BStmt × Nat)
  | 0, _, _ => .error .fuel
  | f+1, toks, pos =>
    let repTok := peekTok BVal.none toks pos
    match expectT BVal.none toks (pos + 1) Ty.LPAREN "Expected \"(\" after repeat" with
    | .error e => .error e
    | .ok (_, p1) =>
      match expectT BVal.none toks p1 Ty.NUMBER "Expected number in repeat" with
      | .error e => .error e
      | .ok (countTok, p2) =>
        match expectT BVal.none toks p2 Ty.RPAREN "Expected \")\"" with
        | .error e => .error e
        | .ok (_, p3) =>
          match expectT BVal.none toks p3 Ty.COLON "Expected \":\" after repeat(n)" with
          | .error e => .error e
          | .ok (_, p4) =>
            let p5 := skipNLs toks p4
            if peekTy BVal.none toks p5 = Ty.INDENT then
              match pBlock f toks (p5 + 1) with
              | .error e => .error e
              | .ok (body, p6) =>
                .ok (.repeatS (jsFloor (bNumVal countTok.val)) body repTok.line, p6)
            else .error (.expectedBlock "repeat" repTok.line)
  termination_by structural f => f

def pIf : Nat → List (Tok BVal) → Nat → Except PErr (BStmt × Nat)
  | 0, _, _ => .error .fuel
  | f+1, toks, pos =>
    let ifTok := peekTok BVal.none toks pos
    match pCondition f toks (pos + 1) with
    | .error e => .error e
    | .ok (cond, p1) =>
      match expectT BVal.none toks p1 Ty.COLON "Expected \":\" after if condition" with
      | .error e => .error e
      | .ok (_, p2) =>
        let p3 := skipNLs toks p2
        if peekTy BVal.none toks p3 = Ty.INDENT then
          match pBlock f toks (p3 + 1) with
          | .error e => .error e
          | .ok (body, p4) => .ok (.ifS cond body ifTok.line, p4)
        else .error (.expectedBlock "if" ifTok.line)
  termination_by structural f => f

def pBlock : Nat → List (Tok BVal) → Nat → Except PErr (List BStmt × Nat)
  | 0, _, _ => .error .fuel
  | f+1, toks, pos => pBlockLoop f toks (skipNLs toks pos) []

def pBlockLoop : Nat → List (Tok BVal) → Nat → List BStmt →
    Except PErr (List BStmt × Nat)
  | 0, _, _, _ => .error .fuel
  | f+1, toks, pos, acc =>
    if peekTy BVal.none toks pos = Ty.DEDENT then .ok (acc, pos + 1)
    else if peekTy BVal.none toks pos = Ty.EOF then .ok (acc, pos)
    else
      match pStatement f toks pos with
      | .error e => .error e
      | .ok (s, p1) => pBlockLoop f toks (skipNLs toks p1) (acc ++ s.toList)
  termination_by structural f => f

end

/-- Mirrors `Parser.parse` main loop: parse statements until EOF, skipping
newlines between statements. -/
def pProgGo : Nat → List (Tok BVal) → Nat → List BStmt →
    Except PErr (List BStmt × Nat)
  | 0, _, _, _ => .error .fuel
  | f+1, toks, pos, acc =>
    if peekTy BVal.none toks pos = Ty.EOF then .ok (acc, pos)
    else
      match pStatement f toks pos with
      | .error e => .error e
      | .ok (s, p1) => pProgGo f toks (skipNLs toks p1) (acc ++ s.toList)

/-- Mirrors `new Parser(tokens).parse()`: the body of the PROGRAM node. -/
def bParse (fuel : Nat) (toks : List (Tok BVal)) : Except PErr (List BStmt) :=
  (pProgGo fuel toks (skipNLs toks 0) []).map Prod.fst

/-- Mirrors `parse(tokenize(source))` for the base engine, with explicit fuel
for the parser's statement loop. -/
def bParseScript (fuel : Nat) (src : String) : Option (Except PErr (List BStmt)) :=
  (bTokenize src).map (bParse fuel)

/-! ### Mini parser AST (`NodeType` of the loop mini-game module) -/

/-- Mini-language expressions: NUMBER, IDENTIFIER, CALL.  Unlike the
base parser, argument positions allow no nested calls. -/
inductive MExpr where
  | int (n : Int)
  | ident (name : String)
  | call (name : String) (args : List MExpr) (line : Nat)
deriving Repr

/-- Mini-language statements: CALL, FOR_LOOP, WHILE_LOOP, IF_STATEMENT
(with elif clauses and optional else body). -/
inductive MStmt where
  | call (name : String) (args : List MExpr) (line : Nat)
  | forL (varName : String) (count : Int) (body : List MStmt) (line : Nat)
  | whileL (cond : MExpr) (body : List MStmt) (line : Nat)
  | ifS (cond : MExpr) (body : List MStmt) (elifs : List (MExpr × List MStmt))
      (els : Option (List MStmt)) (line : Nat)
deriving Repr

/-- Integer payload of a mini token. -/
def mIntVal : MVal → Int
  | .int n => n
  | _ => 0

/-- String payload of a mini token. -/
def mStrVal : MVal → String
  | .str s => s
  | _ => ""

/-! ### Mini parser (`MiniParser`, loop mini-game module) -/

/-- Mirrors `MiniParser.parseArgument`: only NUMBER and IDENTIFIER. -/
def pArgumentM (toks : List (Tok MVal)) (pos : Nat) : Except PErr (MExpr × Nat) :=
  let t := peekTok MVal.none toks pos
  match t.ty with
  | Ty.NUMBER => .ok (.int (mIntVal t.val), pos + 1)
  | Ty.IDENTIFIER => .ok (.ident (mStrVal t.val), pos + 1)
  | ty => .error (.unexpectedToken ty t.line)

/-- Argument list continuation: `while COMMA { advance; parseArgument }`. -/
def pArgChainM : Nat → List (Tok MVal) → Nat → List MExpr →
    Except PErr (List MExpr × Nat)
  | 0, _, _, _ => .error .fuel
  | f+1, toks, pos, acc =>
    if peekTy MVal.none toks pos = Ty.COMMA then
      match pArgumentM toks (pos + 1) with
      | .error e => .error e
      | .ok (a, p1) => pArgChainM f toks p1 (acc ++ [a])
    else .ok (acc, pos)

/-- Mirrors `MiniParser.parseCallWithParens(name, line)`: the cursor stands on
the LPAREN.  Returns the call's parts and the new cursor. -/
def pCallParens (fuel : Nat) (toks : List (Tok MVal)) (pos : Nat)
    (name : String) (line : Nat) : Except PErr ((String × List MExpr × Nat) × Nat) :=
  match expectT MVal.none toks pos Ty.LPAREN "Expected \"(\" after function name" with
  | .error e => .error e
  | .ok (_, p1) =>
    if peekTy MVal.none toks p1 = Ty.RPAREN then
      match expectT MVal.none toks p1 Ty.RPAREN "Expected \")\"" with
      | .error e => .error e
      | .ok (_, p2) => .ok ((name, [], line), p2)
    else
      match pArgumentM toks p1 with
      | .error e => .error e
      | .ok (a, pa) =>
        match pArgChainM fuel toks pa [a] with
        | .error e => .error e
        | .ok (args, p2) =>
          match expectT MVal.none toks p2 Ty.RPAREN "Expected \")\"" with
          | .error e => .error e
          | .ok (_, p3) => .ok ((name, args, line), p3)

/-- Mirrors `MiniParser.parseCall`: advance past the name; a following LPAREN
makes an argumentful call, otherwise a bare no-argument call. -/
def pCallM (fuel : Nat) (toks : List (Tok MVal)) (pos : Nat) :
    Except PErr (MStmt × Nat) :=
  let nameTok := peekTok MVal.none toks pos
  if peekTy MVal.none toks (pos + 1) = Ty.LPAREN then
    (pCallParens fuel toks (pos + 1) (mStrVal nameTok.val) nameTok.line).map
      (fun r => (MStmt.call r.1.1 r.1.2.1 r.1.2.2, r.2))
  else .ok (.call (mStrVal nameTok.val) [] nameTok.line, pos + 1)

/-- Mirrors `MiniParser.parseCondition`: an identifier, or a call when an LPAREN
follows the identifier. -/
def pConditionM (fuel : Nat) (toks : List (Tok MVal)) (pos : Nat) :
    Except PErr (MExpr × Nat) :=
  let t := peekTok MVal.none toks pos
  match t.ty with
  | Ty.IDENTIFIER =>
    if peekTy MVal.none toks (pos + 1) = Ty.LPAREN then
      (pCallParens fuel toks (pos + 1) (mStrVal t.val) t.line).map
        (fun r => (MExpr.call r.1.1 r.1.2.1 r.1.2.2, r.2))
    else .ok (.ident (mStrVal t.val), pos + 1)
  | _ => .error (.expectedCondition t.line)

mutual

def pStatementM : Nat → List (Tok MVal) → Nat → Except PErr (Option MStmt × Nat)
  | 0, _, _ => .error .fuel
  | f+1, toks, pos =>
    match peekTy MVal.none toks pos with
    | Ty.FOR => (pForLoop f toks pos).map (fun r => (some r.1, r.2))
    | Ty.WHILE => (pWhileLoop f toks pos).map (fun r => (some r.1, r.2))
    | Ty.IF => (pIfStatement f toks pos).map (fun r => (some r.1, r.2))
    | Ty.IDENTIFIER => (pCallM f toks pos).map (fun r => (some r.1, r.2))
    | Ty.EOF => .ok (none, pos)
    | Ty.NEWLINE => .ok (none, pos)
    | Ty.DEDENT => .ok (none, pos)
    | _ => .ok (none, pos + 1)
  termination_by structural f => f

def pForLoop : Nat → List (Tok MVal) → Nat → Except PErr (MStmt × Nat)
  | 0, _, _ => .error .fuel
  | f+1, toks, pos =>
    let forTok := peekTok MVal.none toks pos
    match expectT MVal.none toks (pos + 1) Ty.IDENTIFIER
        "Expected variable name after \"for\"" with
    | .error e => .error e
    | .ok (varTok, p1) =>
      match expectT MVal.none toks p1 Ty.IN "Expected \"in\" after loop variable" with
      | .error e => .error e
      | .ok (_, p2) =>
        match expectT MVal.none toks p2 Ty.RANGE "Expected \"range\" after \"in\"" with
        | .error e => .error e
        | .ok (_, p3) =>
          match expectT MVal.none toks p3 Ty.LPAREN "Expected \"(\" after \"range\"" with
          | .error e => .error e
          | .ok (_, p4) =>
            match expectT MVal.none toks p4 Ty.NUMBER "Expected number in range()" with
            | .error e => .error e
            | .ok (countTok, p5) =>
              match expectT MVal.none toks p5 Ty.RPAREN
                  "Expected \")\" after range argument" with
              | .error e => .error e
              | .ok (_, p6) =>
                match expectT MVal.none toks p6 Ty.COLON
                    "Expected \":\" after for statement" with
                | .error e => .error e
                | .ok (_, p7) =>
                  let p8 := skipNLs toks p7
                  if peekTy MVal.none toks p8 = Ty.INDENT then
                    match pBlockLoopM f toks (p8 + 1) [] with
                    | .error e => .error e
                    | .ok (body, p9) =>
                      .ok (.forL (mStrVal varTok.val) (mIntVal countTok.val) body
                            forTok.line, p9)
                  else .error (.expectedBlock "for loop" forTok.line)
  termination_by structural f => f

def pWhileLoop : Nat → List (Tok MVal) → Nat → Except PErr (MStmt × Nat)
  | 0, _, _ => .error .fuel
  | f+1, toks, pos =>
    let whileTok := peekTok MVal.none toks pos
    match pConditionM f toks (pos + 1) with
    | .error e => .error e
    | .ok (cond, p1) =>
      match expectT MVal.none toks p1 Ty.COLON "Expected \":\" after while condition" with
      | .error e => .error e
      | .ok (_, p2) =>
        let p3 := skipNLs toks p2
        if peekTy MVal.none toks p3 = Ty.INDENT then
          match pBlockLoopM f toks (p3 + 1) [] with
          | .error e => .error e
          | .ok (body, p4) => .ok (.whileL cond body whileTok.line, p4)
        else .error (.expectedBlock "while loop" whileTok.line)
  termination_by structural f => f

def pIfStatement : Nat → List (Tok MVal) → Nat → Except PErr (MStmt × Nat)
  | 0, _, _ => .error .fuel
  | f+1, toks, pos =>
    let ifTok := peekTok MVal.none toks pos
    match pConditionM f toks (pos + 1) with
    | .error e => .error e
    | .ok (cond, p1) =>
      match expectT MVal.none toks p1 Ty.COLON "Expected \":\" after if condition" with
      | .error e => .error e
      | .ok (_, p2) =>
        let p3 := skipNLs toks p2
        if peekTy MVal.none toks p3 = Ty.INDENT then
          match pBlockLoopM f toks (p3 + 1) [] with
          | .error e => .error e
          | .ok (body, p4) =>
            match pElifChain f toks (skipNLs toks p4) [] with
            | .error e => .error e
            | .ok (elifs, p5) =>
              if peekTy MVal.none toks p5 = Ty.ELSE then
                match expectT MVal.none toks (p5 + 1) Ty.COLON
                    "Expected \":\" after else" with
                | .error e => .error e
                | .ok (_, p6) =>
                  let p7 := skipNLs toks p6
                  if peekTy MVal.none toks p7 = Ty.INDENT then
                    match pBlockLoopM f toks (p7 + 1) [] with
                    | .error e => .error e
                    | .ok (els, p8) =>
                      .ok (.ifS cond body elifs (some els) ifTok.line, p8)
                  else .error (.expectedBlock "else" (peekTok MVal.none toks p7).line)
              else .ok (.ifS cond body elifs none ifTok.line, p5)
        else .error (.expectedBlock "if" ifTok.line)
  termination_by structural f => f

def pElifChain : Nat → List (Tok MVal) → Nat → List (MExpr × List MStmt) →
    Except PErr (List (MExpr × List MStmt) × Nat)
  | 0, _, _, _ => .error .fuel
  | f+1, toks, pos, acc =>
    if peekTy MVal.none toks pos = Ty.ELIF then
      match pConditionM f toks (pos + 1) with
      | .error e => .error e
      | .ok (cond, p1) =>
        match expectT MVal.none toks p1 Ty.COLON "Expected \":\" after elif condition" with
        | .error e => .error e
        | .ok (_, p2) =>
          let p3 := skipNLs toks p2
          if peekTy MVal.none toks p3 = Ty.INDENT then
            match pBlockLoopM f toks (p3 + 1) [] with
            | .error e => .error e
            | .ok (body, p4) =>
              pElifChain f toks (skipNLs toks p4) (acc ++ [(cond, body)])
          else .error (.expectedBlock "elif" (peekTok MVal.none toks p3).line)
    else .ok (acc, pos)
  termination_by structural f => f

def pBlockLoopM : Nat → List (Tok MVal) → Nat → List MStmt →
    Except PErr (List MStmt × Nat)
  | 0, _, _, _ => .error .fuel
  | f+1, toks, pos, acc =>
    if peekTy MVal.none toks pos = Ty.DEDENT then .ok (acc, pos + 1)
    else if peekTy MVal.none toks pos = Ty.EOF then .ok (acc, pos)
    else
      match pStatementM f toks pos with
      | .error e => .error e
      | .ok (s, p1) => pBlockLoopM f toks (skipNLs toks p1) (acc ++ s.toList)
  termination_by structural f => f

end

/-- Mirrors `MiniParser.parse` main loop. -/
def pProgGoM : Nat → List (Tok MVal) → Nat → List MStmt →
    Except PErr (List MStmt × Nat)
  | 0, _, _, _ => .error .fuel
  | f+1, toks, pos, acc =>
    if peekTy MVal.none toks pos = Ty.EOF then .ok (acc, pos)
    else
      match pStatementM f toks pos with
      | .error e => .error e
      | .ok (s, p1) => pProgGoM f toks (skipNLs toks p1) (acc ++ s.toList)

/-- Mirrors `new MiniParser(tokens).parse()`: the body of the PROGRAM node. -/
def mParse (fuel : Nat) (toks : List (Tok MVal)) : Except PErr (List MStmt) :=
  (pProgGoM fuel toks (skipNLs toks 0) []).map Prod.fst

/-- Mini pipeline `parser.parse(lexer.tokenize(src))` as run by the
loop mini-game. -/
def mParseScript (fuel : Nat) (src : String) :
    Except MLexErr (Except PErr (List MStmt)) :=
  (mTokenize src).map (mParse fuel)

/-! ### Mini executor (`MiniExecutor`, loop mini-game module)

Host commands are modelled as a table from names to functions on an
abstract host state that return a value or throw (an `Except.error`
with the thrown message).  The executor state couples the host state
with the executor's cooperative `stopped` flag (set only by the host's
`stop()`; never set during a run). -/

/-- Runtime values of the mini executor (JavaScript values flowing
through `evaluateArgument`/conditions): integers, booleans, strings,
undefined. -/
inductive MRVal where
  | int (n : Int)
  | bool (b : Bool)
  | str (s : String)
  | undef
deriving DecidableEq, Repr

/-- JavaScript truthiness on mini-executor values. -/
def mTruthy : MRVal → Bool
  | .bool b => b
  | .int n => decide (n ≠ 0)
  | .str s => decide (s ≠ "")
  | .undef => false

/-- Failures of a mini-executor run: an unknown command (`throw new
Error("Unknown command: ...")`), an exception thrown by a host command,
the while-loop iteration cap, or fuel exhaustion. -/
inductive MErr where
  | unknownCommand (name : String)
  | hostError (msg : String)
  | iterLimit (max : Nat)
  | fuel
deriving DecidableEq, Repr

/-- Executor state: host state plus the cooperative stop flag. -/
structure MSt (σ : Type u) where
  host : σ
  stopped : Bool
deriving DecidableEq, Repr

/-- Command table: host commands receive evaluated arguments and the
host state, and return a value (or throw) plus the updated host state. -/
def MCmds (σ : Type u) : Type u :=
  String → Option (List MRVal → σ → Except String MRVal × σ)

/-- Result of executing one construct: value or error, plus state. -/
abbrev MRes (σ : Type u) := Except MErr MRVal × MSt σ

/-- Mirrors `evaluateArgument` on IDENTIFIER nodes: boolean literals, all other
names evaluate to themselves as strings. -/
def identValM (n : String) : MRVal :=
  if n = "True" ∨ n = "true" then .bool true
  else if n = "False" ∨ n = "false" then .bool false
  else .str n

mutual

/-- Mirrors `MiniExecutor.evaluateArgument`. -/
def evalArgM {σ : Type u} : Nat → MCmds σ → MExpr → MSt σ → MRes σ
  | 0, _, _, st => (.error .fuel, st)
  | f+1, cmds, a, st =>
    match a with
    | .int n => (.ok (.int n), st)
    | .ident n => (.ok (identValM n), st)
    | .call name args _ => execCallSyncM f cmds name args st
  termination_by structural f => f

/-- Left-to-right evaluation of an argument list (`args.map(...)`). -/
def evalArgsM {σ : Type u} : Nat → MCmds σ → List MExpr → MSt σ →
    Except MErr (List MRVal) × MSt σ
  | 0, _, _, st => (.error .fuel, st)
  | _+1, _, [], st => (.ok [], st)
  | f+1, cmds, a :: rest, st =>
    match evalArgM f cmds a st with
    | (.error e, st1) => (.error e, st1)
    | (.ok v, st1) =>
      match evalArgsM f cmds rest st1 with
      | (.error e, st2) => (.error e, st2)
      | (.ok vs, st2) => (.ok (v :: vs), st2)
  termination_by structural f => f

/-- Mirrors `MiniExecutor.executeCallSync`: unknown names throw, host throws
propagate. -/
def execCallSyncM {σ : Type u} : Nat → MCmds σ → String → List MExpr → MSt σ → MRes σ
  | 0, _, _, _, st => (.error .fuel, st)
  | f+1, cmds, name, args, st =>
    match cmds name with
    | none => (.error (.unknownCommand name), st)
    | some fn =>
      match evalArgsM f cmds args st with
      | (.error e, st1) => (.error e, st1)
      | (.ok vals, st1) =>
        let r := fn vals st1.host
        match r.1 with
        | .ok v => (.ok v, { st1 with host := r.2 })
        | .error msg => (.error (.hostError msg), { st1 with host := r.2 })
  termination_by structural f => f

end

/-- Mirrors `MiniExecutor.evaluateCondition`: calls run synchronously,
identifiers evaluate as arguments, anything else is false. -/
def evalCondM {σ : Type u} (f : Nat) (cmds : MCmds σ) (cond : MExpr) (st : MSt σ) : MRes σ :=
  match cond with
  | .call name args _ => execCallSyncM f cmds name args st
  | .ident _ => evalArgM f cmds cond st
  | _ => (.ok (.bool false), st)

/-- Mirrors `MiniExecutor.executeCall` (statement position): same failure
behavior as the synchronous path — unknown command and host exceptions
abort the run. -/
def execCallStmtM {σ : Type u} (f : Nat) (cmds : MCmds σ) (name : String)
    (args : List MExpr) (st : MSt σ) : MRes σ :=
  match cmds name with
  | none => (.error (.unknownCommand name), st)
  | some fn =>
    match evalArgsM f cmds args st with
    | (.error e, st1) => (.error e, st1)
    | (.ok vals, st1) =>
      let r := fn vals st1.host
      match r.1 with
      | .ok v => (.ok v, { st1 with host := r.2 })
      | .error msg => (.error (.hostError msg), { st1 with host := r.2 })

/-- Mirrors `MiniExecutor.executeWhileLoop`, abstracted over how the condition
is evaluated and how one body pass runs.  `rem = maxIterations −
iterations` counts the remaining allowed iterations; the JavaScript
loop is `while (evaluateCondition(c) && iterations < max) { if
(stopped) break; iterations++; body }` followed by `if (iterations >=
max) throw`.  Note the trailing cap check fires even when the loop
exited because the condition turned false at `iterations = max`. -/
def execWhileGo {σ : Type u} (runBody : MSt σ → MRes σ) (evalCond : MSt σ → MRes σ)
    (max : Nat) : Nat → MSt σ → MRes σ
  | rem, st =>
    match evalCond st with
    | (.error e, st1) => (.error e, st1)
    | (.ok v, st1) =>
      if mTruthy v then
        match rem with
        | 0 => (.error (.iterLimit max), st1)
        | rem'+1 =>
          if st1.stopped then (.ok .undef, st1)
          else
            match runBody st1 with
            | (.error e, st2) => (.error e, st2)
            | (.ok _, st2) => execWhileGo runBody evalCond max rem' st2
      else
        match rem with
        | 0 => (.error (.iterLimit max), st1)
        | _+1 => (.ok .undef, st1)
  termination_by structural rem => rem

/-- Mirrors `MiniExecutor.executeForLoop`: run the body `count` times (the
loop variable is never bound), checking the stop flag each iteration. -/
def execForGo {σ : Type u} (runBody : MSt σ → MRes σ) : Nat → MSt σ → MRes σ
  | 0, st => (.ok .undef, st)
  | n+1, st =>
    if st.stopped then (.ok .undef, st)
    else
      match runBody st with
      | (.error e, st1) => (.error e, st1)
      | (.ok _, st1) => execForGo runBody n st1

/-- The elif cascade of `MiniExecutor.executeIfStatement`: evaluate
elif conditions in declared order, run the body of the first truthy
one; if none matches, run the else body when present. -/
def execElifsGo {σ : Type u} (evalCondE : MExpr → MSt σ → MRes σ)
    (runBlock : List MStmt → MSt σ → MRes σ) (els : Option (List MStmt)) :
    List (MExpr × List MStmt) → MSt σ → MRes σ
  | [], st =>
    match els with
    | some b => runBlock b st
    | none => (.ok .undef, st)
  | (c, b) :: rest, st =>
    match evalCondE c st with
    | (.error e, st1) => (.error e, st1)
    | (.ok v, st1) =>
      if mTruthy v then runBlock b st1
      else execElifsGo evalCondE runBlock els rest st1

/-- Mirrors `MiniExecutor.executeIfStatement`: primary condition first, then
the elif cascade. -/
def execIfGo {σ : Type u} (evalCondE : MExpr → MSt σ → MRes σ)
    (runBlock : List MStmt → MSt σ → MRes σ) (cond : MExpr) (body : List MStmt)
    (elifs : List (MExpr × List MStmt)) (els : Option (List MStmt)) (st : MSt σ) : MRes σ :=
  match evalCondE cond st with
  | (.error e, st1) => (.error e, st1)
  | (.ok v, st1) =>
    if mTruthy v then runBlock body st1
    else execElifsGo evalCondE runBlock els elifs st1

mutual

/-- Mirrors `MiniExecutor.executeStatement`: stop-flag check, then dispatch on
the node kind. -/
def execStmtM {σ : Type u} : Nat → Nat → MCmds σ → MStmt → MSt σ → MRes σ
  | 0, _, _, _, st => (.error .fuel, st)
  | f+1, max, cmds, s, st =>
    if st.stopped then (.ok .undef, st)
    else
      match s with
      | .call name args _ => execCallStmtM f cmds name args st
      | .forL _ count body _ =>
        execForGo (fun st' => execBlockM f max cmds body st') count.toNat st
      | .whileL cond body _ =>
        execWhileGo (fun st' => execBlockM f max cmds body st')
          (fun st' => evalCondM f cmds cond st') max max st
      | .ifS cond body elifs els _ =>
        execIfGo (fun c st' => evalCondM f cmds c st')
          (fun l st' => execBlockM f max cmds l st') cond body elifs els st
  termination_by structural f => f

/-- A statement block (`for (const stmt of body) { if (stopped) break;
await executeStatement(stmt); }`). -/
def execBlockM {σ : Type u} : Nat → Nat → MCmds σ → List MStmt → MSt σ → MRes σ
  | 0, _, _, _, st => (.error .fuel, st)
  | _+1, _, _, [], st => (.ok .undef, st)
  | f+1, max, cmds, s :: rest, st =>
    if st.stopped then (.ok .undef, st)
    else
      match execStmtM f max cmds s st with
      | (.error e, st1) => (.error e, st1)
      | (.ok _, st1) => execBlockM f max cmds rest st1
  termination_by structural f => f

end

/-- The statement loop of `MiniExecutor.execute`. -/
def execProgM {σ : Type u} : Nat → Nat → MCmds σ → List MStmt → MSt σ → MRes σ
  | 0, _, _, _, st => (.error .fuel, st)
  | _+1, _, _, [], st => (.ok .undef, st)
  | f+1, max, cmds, s :: rest, st =>
    if st.stopped then (.ok .undef, st)
    else
      match execStmtM f max cmds s st with
      | (.error e, st1) => (.error e, st1)
      | (.ok _, st1) => execProgM f max cmds rest st1

/-- Mirrors `new MiniExecutor(commands, max).execute(ast)`: `reset()` clears
the stop flag, then the program body runs statement by statement. -/
def mExecute {σ : Type u} (fuel max : Nat) (cmds : MCmds σ) (prog : List MStmt)
    (host : σ) : MRes σ :=
  execProgM fuel max cmds prog ⟨host, false⟩

/-! ### Base executor (`Executor`, script parser module)

This executor reports through an output sink (`printFn`) and paces
execution with delays.  Its observable actions — sink messages, pacing
delays, and command invocations — are recorded in an event trace; the
sink messages are modelled structurally (constructor plus payload
instead of the literal message strings). -/

/-- Runtime values of the base executor. -/
inductive JVal where
  | num (q : JsNum)
  | str (s : String)
  | bool (b : Bool)
  | undef
deriving DecidableEq, Repr

/-- JavaScript truthiness on base-executor values. -/
def jsTruthy : JVal → Bool
  | .bool b => b
  | .num q => decide (q.num ≠ 0)
  | .str s => decide (s ≠ "")
  | .undef => false

/-- Observable actions of the base executor, in order:
`printNameError`/`printHelpHint` are the two sink messages of an
unknown statement-position call, `printCmdError` the caught host
exception report, `printRepeatInfo`/`printCondTrue`/`printCondFalse`
the informational messages, `delay` the pacing suspension, and
`invoke` a host-command invocation with its evaluated arguments. -/
inductive BEvent where
  | printNameError (name : String)
  | printHelpHint
  | printCmdError (msg : String)
  | printRepeatInfo (count : Int)
  | printCondTrue
  | printCondFalse
  | delay (ms : Nat)
  | invoke (name : String) (args : List JVal)
deriving DecidableEq, Repr

/-- Failures of a base-executor run: an exception escaping a
synchronous (argument/condition position) command invocation, or fuel
exhaustion. -/
inductive BErr where
  | hostError (msg : String)
  | fuel
deriving DecidableEq, Repr

/-- Executor state: host state plus the event trace so far. -/
structure BSt (σ : Type u) where
  host : σ
  events : List BEvent
deriving DecidableEq, Repr

/-- Command table of the base executor. -/
def BCmds (σ : Type u) : Type u :=
  String → Option (List JVal → σ → Except String JVal × σ)

/-- Result of executing one construct. -/
abbrev BRes (σ : Type u) := Except BErr JVal × BSt σ

/-- Mirrors `evaluateArgument` on IDENTIFIER nodes (base executor). -/
def identValB (n : String) : JVal :=
  if n = "True" ∨ n = "true" then .bool true
  else if n = "False" ∨ n = "false" then .bool false
  else .str n

mutual

/-- Mirrors `Executor.evaluateArgument`. -/
def evalArgB {σ : Type u} : Nat → BCmds σ → BExpr → BSt σ → BRes σ
  | 0, _, _, st => (.error .fuel, st)
  | f+1, cmds, a, st =>
    match a with
    | .num q => (.ok (.num q), st)
    | .str s => (.ok (.str s), st)
    | .ident n => (.ok (identValB n), st)
    | .call name args _ => execCallSyncB f cmds name args st
  termination_by structural f => f

/-- Left-to-right evaluation of an argument list. -/
def evalArgsB {σ : Type u} : Nat → BCmds σ → List BExpr → BSt σ →
    Except BErr (List JVal) × BSt σ
  | 0, _, _, st => (.error .fuel, st)
  | _+1, _, [], st => (.ok [], st)
  | f+1, cmds, a :: rest, st =>
    match evalArgB f cmds a st with
    | (.error e, st1) => (.error e, st1)
    | (.ok v, st1) =>
      match evalArgsB f cmds rest st1 with
      | (.error e, st2) => (.error e, st2)
      | (.ok vs, st2) => (.ok (v :: vs), st2)
  termination_by structural f => f

/-- Mirrors `Executor.executeCallSync` (argument/condition position): unknown
names silently produce undefined; a host exception propagates. -/
def execCallSyncB {σ : Type u} : Nat → BCmds σ → String → List BExpr → BSt σ → BRes σ
  | 0, _, _, _, st => (.error .fuel, st)
  | f+1, cmds, name, args, st =>
    match cmds name with
    | none => (.ok .undef, st)
    | some fn =>
      match evalArgsB f cmds args st with
      | (.error e, st1) => (.error e, st1)
      | (.ok vals, st1) =>
        let r := fn vals st1.host
        let st2 : BSt σ := ⟨r.2, st1.events ++ [.invoke name vals]⟩
        match r.1 with
        | .ok v => (.ok v, st2)
        | .error msg => (.error (.hostError msg), st2)
  termination_by structural f => f

end

/-- Mirrors `Executor.executeCall` (statement position): an unknown name
reports the NameError and the help hint to the sink and produces
undefined; arguments are then evaluated (synchronous-call failures in
argument position propagate, they are outside the try block); a host
exception from the invocation itself is caught and reported. -/
def execCallB {σ : Type u} (f : Nat) (cmds : BCmds σ) (name : String)
    (args : List BExpr) (st : BSt σ) : BRes σ :=
  match cmds name with
  | none =>
    (.ok .undef, ⟨st.host, st.events ++ [.printNameError name, .printHelpHint]⟩)
  | some fn =>
    match evalArgsB f cmds args st with
    | (.error e, st1) => (.error e, st1)
    | (.ok vals, st1) =>
      let r := fn vals st1.host
      let st2 : BSt σ := ⟨r.2, st1.events ++ [.invoke name vals]⟩
      match r.1 with
      | .ok v => (.ok v, st2)
      | .error msg => (.ok .undef, ⟨st2.host, st2.events ++ [.printCmdError msg]⟩)

/-- The repetition loop of `Executor.executeRepeat`: `count` passes of
the body (negative counts run zero times). -/
def execRepeatGo {σ : Type u} (runBody : BSt σ → BRes σ) : Nat → BSt σ → BRes σ
  | 0, st => (.ok .undef, st)
  | n+1, st =>
    match runBody st with
    | (.error e, st1) => (.error e, st1)
    | (.ok _, st1) => execRepeatGo runBody n st1

mutual

/-- Mirrors `Executor.executeStatement`: dispatch on the node kind. -/
def execStmtB {σ : Type u} : Nat → BCmds σ → BStmt → BSt σ → BRes σ
  | 0, _, _, st => (.error .fuel, st)
  | f+1, cmds, s, st =>
    match s with
    | .call name args _ => execCallB f cmds name args st
    | .seq stmts => execStmtsDelayB f cmds stmts st
    | .repeatS count body _ =>
      execRepeatGo (fun st' => execStmtsDelayB f cmds body st') count.toNat
        ⟨st.host, st.events ++ [.printRepeatInfo count]⟩
    | .ifS cond body _ =>
      let cr : BRes σ :=
        match cond with
        | .call name args _ => execCallSyncB f cmds name args st
        | .ident n => (.ok (identValB n), st)
        | _ => (.ok .undef, st)
      match cr with
      | (.error e, st1) => (.error e, st1)
      | (.ok v, st1) =>
        if jsTruthy v then
          execStmtsDelayB f cmds body ⟨st1.host, st1.events ++ [.printCondTrue]⟩
        else (.ok .undef, ⟨st1.host, st1.events ++ [.printCondFalse]⟩)
  termination_by structural f => f

/-- The statement-then-delay loop shared by SEQUENCE bodies, repeat
bodies and if bodies (`await executeStatement(stmt); await
this.delay(this.executionDelay)`, with `executionDelay = 200`). -/
def execStmtsDelayB {σ : Type u} : Nat → BCmds σ → List BStmt → BSt σ → BRes σ
  | 0, _, _, st => (.error .fuel, st)
  | _+1, _, [], st => (.ok .undef, st)
  | f+1, cmds, s :: rest, st =>
    match execStmtB f cmds s st with
    | (.error e, st1) => (.error e, st1)
    | (.ok _, st1) => execStmtsDelayB f cmds rest ⟨st1.host, st1.events ++ [.delay 200]⟩
  termination_by structural f => f

end

/-- The statement loop of `Executor.execute` (no pacing delay at the
top level). -/
def execProgB {σ : Type u} : Nat → BCmds σ → List BStmt → BSt σ → BRes σ
  | 0, _, _, st => (.error .fuel, st)
  | _+1, _, [], st => (.ok .undef, st)
  | f+1, cmds, s :: rest, st =>
    match execStmtB f cmds s st with
    | (.error e, st1) => (.error e, st1)
    | (.ok _, st1) => execProgB f cmds rest st1

/-- Mirrors `createExecutor(commands, printFn).execute(ast)` with an empty
initial trace. -/
def bExecute {σ : Type u} (fuel : Nat) (cmds : BCmds σ) (prog : List BStmt)
    (host : σ) : BRes σ :=
  execProgB fuel cmds prog ⟨host, []⟩

/-! ### SnakePuzzle (loop mini-game module) -/

/-- The snake-puzzle grid state (`new SnakePuzzle(gridSize)` starts the
snake at the top-left, the goal at the bottom-right). -/
structure Snake where
  gridSize : Int
  snakeX : Int
  snakeY : Int
  goalX : Int
  goalY : Int
  moves : Int
  maxMoves : Int
deriving DecidableEq, Repr

/-- The `SnakePuzzle` constructor. -/
def mkSnake (gridSize : Int) : Snake :=
  ⟨gridSize, 0, 0, gridSize - 1, gridSize - 1, 0, 50⟩

def Snake.isAtGoal (s : Snake) : Bool :=
  decide (s.snakeX = s.goalX ∧ s.snakeY = s.goalY)

def Snake.canMoveUp (s : Snake) : Bool := decide (s.snakeY > 0)

def Snake.canMoveDown (s : Snake) : Bool := decide (s.snakeY < s.gridSize - 1)

def Snake.canMoveLeft (s : Snake) : Bool := decide (s.snakeX > 0)

def Snake.canMoveRight (s : Snake) : Bool := decide (s.snakeX < s.gridSize - 1)

/-- Mirrors `moveUp`: either move and count, or throw leaving the state
untouched. -/
def Snake.moveUp (s : Snake) : Except String Bool × Snake :=
  if s.canMoveUp then
    (.ok true, { s with snakeY := s.snakeY - 1, moves := s.moves + 1 })
  else (.error "Cannot move up: already at the top edge!", s)

def Snake.moveDown (s : Snake) : Except String Bool × Snake :=
  if s.canMoveDown then
    (.ok true, { s with snakeY := s.snakeY + 1, moves := s.moves + 1 })
  else (.error "Cannot move down: already at the bottom edge!", s)

def Snake.moveLeft (s : Snake) : Except String Bool × Snake :=
  if s.canMoveLeft then
    (.ok true, { s with snakeX := s.snakeX - 1, moves := s.moves + 1 })
  else (.error "Cannot move left: already at the left edge!", s)

def Snake.moveRight (s : Snake) : Except String Bool × Snake :=
  if s.canMoveRight then
    (.ok true, { s with snakeX := s.snakeX + 1, moves := s.moves + 1 })
  else (.error "Cannot move right: already at the right edge!", s)

/-- The command table `runLoopMiniGame` hands to the `MiniExecutor`,
closing over the puzzle state. -/
def snakeCmds : MCmds Snake := fun name =>
  if name = "move_up" then
    some (fun _ s => let r := s.moveUp; (r.1.map .bool, r.2))
  else if name = "move_down" then
    some (fun _ s => let r := s.moveDown; (r.1.map .bool, r.2))
  else if name = "move_left" then
    some (fun _ s => let r := s.moveLeft; (r.1.map .bool, r.2))
  else if name = "move_right" then
    some (fun _ s => let r := s.moveRight; (r.1.map .bool, r.2))
  else if name = "at_goal" then
    some (fun _ s => (.ok (.bool s.isAtGoal), s))
  else if name = "can_move_up" then
    some (fun _ s => (.ok (.bool s.canMoveUp), s))
  else if name = "can_move_down" then
    some (fun _ s => (.ok (.bool s.canMoveDown), s))
  else if name = "can_move_left" then
    some (fun _ s => (.ok (.bool s.canMoveLeft), s))
  else if name = "can_move_right" then
    some (fun _ s => (.ok (.bool s.canMoveRight), s))
  else none

/-! ### Support definitions for the verification -/

/-- The lexer invariant relating a token list to the number `L` of
indentation levels still open when its emission started: DEDENTs exceed
INDENTs by exactly `L` overall, no prefix overdraws, and the list ends
with EOF. -/
def lexInv {V : Type} (L : Nat) (ts : List (Tok V)) : Prop :=
  cntDedent ts = cntIndent ts + L ∧
  (∀ p q, ts = p ++ q → cntDedent p ≤ cntIndent p + L) ∧
  ts.getLast?.map (fun t => t.ty) = some Ty.EOF

/-- Token list of the stray-indented two-call script (the second line
is indented although no block construct opened a block). -/
def strayToks : List (Tok BVal) := (bTokenize "x()\n    y()\n").getD []

/-- One iteration of `Parser.parse`'s main loop: `parseStatement`
followed by `skipNewlines`, returning the new cursor position (`none`
on a parse error). -/
def mainStepPos (f : Nat) (toks : List (Tok BVal)) (pos : Nat) : Option Nat :=
  match pStatement f toks pos with
  | .ok (_, p) => some (skipNLs toks p)
  | .error _ => none

/-- Chains `n` completed iterations of a while loop, each consisting of a
truthy condition evaluation (with the stop flag clear) followed by a
successful body pass; `none` when the loop does not run `n` full
iterations that way. -/
def whileIters {σ : Type u} (runBody evalCond : MSt σ → MRes σ) :
    Nat → MSt σ → Option (MSt σ)
  | 0, st => some st
  | n+1, st =>
    match evalCond st with
    | (.ok v, st1) =>
      if mTruthy v ∧ st1.stopped = false then
        match runBody st1 with
        | (.ok _, st2) => whileIters runBody evalCond n st2
        | _ => none
      else none
    | _ => none

/-- Modelled from the spec: the elif cascade of branch selection —
"evaluates ELIF clauses in declared order, running the first whose
condition is true ...; if none matched and an ELSE body exists, runs
it" — selecting which body (if any) is to run, without running any. -/
def specSelectElse {σ : Type u} (evalCondE : MExpr → MSt σ → MRes σ)
    (els : Option (List MStmt)) :
    List (MExpr × List MStmt) → MSt σ → Except MErr (Option (List MStmt)) × MSt σ
  | [], st => (.ok els, st)
  | (c, b) :: rest, st =>
    match evalCondE c st with
    | (.error e, st1) => (.error e, st1)
    | (.ok v, st1) =>
      if mTruthy v then (.ok (some b), st1)
      else specSelectElse evalCondE els rest st1

/-- Modelled from the spec: "evaluates the primary condition; on true,
runs its body and stops; otherwise ..." — the selected branch body of
an IF statement (`none` = no branch runs). -/
def specIfSelect {σ : Type u} (evalCondE : MExpr → MSt σ → MRes σ) (cond : MExpr)
    (body : List MStmt) (elifs : List (MExpr × List MStmt))
    (els : Option (List MStmt)) (st : MSt σ) :
    Except MErr (Option (List MStmt)) × MSt σ :=
  match evalCondE cond st with
  | (.error e, st1) => (.error e, st1)
  | (.ok v, st1) =>
    if mTruthy v then (.ok (some body), st1)
    else specSelectElse evalCondE els elifs st1

/-- Command table for the unbounded-loop scenario: `can_move_right`
always returns true, `move_right` counts its invocations in the host
state. -/
def stepCmds : MCmds Nat := fun name =>
  if name = "can_move_right" then some (fun _ n => (.ok (.bool true), n))
  else if name = "move_right" then some (fun _ n => (.ok (.bool true), n + 1))
  else none

/-- Command table for the if/else scenario: `at_goal` is false, `win`
and `lose` count their invocations in the host state. -/
def ifCmds : MCmds (Nat × Nat) := fun name =>
  if name = "at_goal" then some (fun _ s => (.ok (.bool false), s))
  else if name = "win" then some (fun _ s => (.ok .undef, (s.1 + 1, s.2)))
  else if name = "lose" then some (fun _ s => (.ok .undef, (s.1, s.2 + 1)))
  else none

/-- Base-engine command table recording `move_right` invocations. -/
def rightCmds : BCmds Nat := fun name =>
  if name = "move_right" then some (fun _ n => (.ok (.bool true), n + 1))
  else none

/-! ### Lemmas: structural-token bookkeeping of the lexers -/

theorem exceptMap_eq_ok {ε α β : Type} {f : α → β} {x : Except ε α} {b : β} :
    x.map f = .ok b ↔ ∃ a, x = .ok a ∧ f a = b := by
  cases x <;> simp [Except.map]

theorem cntIndent_cons {V : Type} (t : Tok V) (ts : List (Tok V)) :
    cntIndent (t :: ts) = cntIndent ts + (if t.ty = Ty.INDENT then 1 else 0) := by
  simp [cntIndent, List.countP_cons]

theorem cntDedent_cons {V : Type} (t : Tok V) (ts : List (Tok V)) :
    cntDedent (t :: ts) = cntDedent ts + (if t.ty = Ty.DEDENT then 1 else 0) := by
  simp [cntDedent, List.countP_cons]

theorem cntIndent_nil {V : Type} : cntIndent ([] : List (Tok V)) = 0 := rfl

theorem cntDedent_nil {V : Type} : cntDedent ([] : List (Tok V)) = 0 := rfl

theorem lexInv_ne_nil {V : Type} {L : Nat} {ts : List (Tok V)} (h : lexInv L ts) :
    ts ≠ [] := by
  rcases h with ⟨-, -, he⟩
  intro hnil
  subst hnil
  simp at he

/-- Prepending a non-structural token preserves the invariant. -/
theorem lexInv_cons_plain {V : Type} {L : Nat} {ts : List (Tok V)} {t : Tok V}
    (h1 : t.ty ≠ Ty.INDENT) (h2 : t.ty ≠ Ty.DEDENT) (h : lexInv L ts) :
    lexInv L (t :: ts) := by
  obtain ⟨hb, hp, he⟩ := h
  refine ⟨?_, ?_, ?_⟩
  · rw [cntIndent_cons, cntDedent_cons]
    simp [h1, h2, hb]
  · intro p q hpq
    cases p with
    | nil => simp [cntIndent_nil, cntDedent_nil]
    | cons a p' =>
      have ha : a = t := by simpa using congrArg (fun l => l.headD t) hpq.symm
      have hts : ts = p' ++ q := by simpa using congrArg List.tail hpq
      subst ha
      rw [cntIndent_cons, cntDedent_cons]
      simp only [h1, h2, if_false]
      have := hp p' q hts
      omega
  · cases ts with
    | nil => simp at he
    | cons b l => simpa [List.getLast?] using he

/-- Prepending an INDENT token lowers the slack by one. -/
theorem lexInv_cons_indent {V : Type} {L : Nat} {ts : List (Tok V)} {t : Tok V}
    (ht : t.ty = Ty.INDENT) (h : lexInv (L + 1) ts) : lexInv L (t :: ts) := by
  obtain ⟨hb, hp, he⟩ := h
  refine ⟨?_, ?_, ?_⟩
  · rw [cntIndent_cons, cntDedent_cons]
    simp [ht, hb]
    omega
  · intro p q hpq
    cases p with
    | nil => simp [cntIndent_nil, cntDedent_nil]
    | cons a p' =>
      have ha : a = t := by simpa using congrArg (fun l => l.headD t) hpq.symm
      have hts : ts = p' ++ q := by simpa using congrArg List.tail hpq
      subst ha
      rw [cntIndent_cons, cntDedent_cons]
      simp only [ht]
      have := hp p' q hts
      simp only [show Ty.INDENT = Ty.INDENT from rfl, if_true]
      have hd : (if Ty.INDENT = Ty.DEDENT then 1 else 0) = 0 := by simp
      rw [hd]
      omega
  · cases ts with
    | nil => simp at he
    | cons b l => simpa [List.getLast?] using he

/-- Prepending a DEDENT token raises the slack by one. -/
theorem lexInv_cons_dedent {V : Type} {L : Nat} {ts : List (Tok V)} {t : Tok V}
    (ht : t.ty = Ty.DEDENT) (h : lexInv L ts) : lexInv (L + 1) (t :: ts) := by
  obtain ⟨hb, hp, he⟩ := h
  refine ⟨?_, ?_, ?_⟩
  · rw [cntIndent_cons, cntDedent_cons]
    simp [ht, hb]
    omega
  · intro p q hpq
    cases p with
    | nil => simp [cntIndent_nil, cntDedent_nil]
    | cons a p' =>
      have ha : a = t := by simpa using congrArg (fun l => l.headD t) hpq.symm
      have hts : ts = p' ++ q := by simpa using congrArg List.tail hpq
      subst ha
      rw [cntIndent_cons, cntDedent_cons]
      simp only [ht]
      have := hp p' q hts
      have hd : (if Ty.DEDENT = Ty.INDENT then 1 else 0) = 0 := by simp
      rw [hd]
      simp only [show Ty.DEDENT = Ty.DEDENT from rfl, if_true]
      omega
  · cases ts with
    | nil => simp at he
    | cons b l => simpa [List.getLast?] using he

/-- Prepending `k` DEDENT tokens raises the slack by `k`. -/
theorem lexInv_dedents {V : Type} {L : Nat} {ts : List (Tok V)} (v : V)
    (line col : Nat) (k : Nat) (h : lexInv L ts) :
    lexInv (L + k) (List.replicate k (⟨Ty.DEDENT, v, line, col⟩ : Tok V) ++ ts) := by
  induction k with
  | zero => simpa using h
  | succ k ihk =>
    have : L + (k + 1) = (L + k) + 1 := by omega
    rw [this, List.replicate_succ, List.cons_append]
    exact lexInv_cons_dedent rfl ihk

/-- A lone EOF token satisfies the invariant at slack 0. -/
theorem lexInv_eof {V : Type} (v : V) (line col : Nat) :
    lexInv 0 [(⟨Ty.EOF, v, line, col⟩ : Tok V)] := by
  refine ⟨by simp [cntIndent, cntDedent], ?_, by simp⟩
  intro p q hpq
  have hcase : p = [] ∨ p = [(⟨Ty.EOF, v, line, col⟩ : Tok V)] := by
    cases p with
    | nil => exact Or.inl rfl
    | cons a p' =>
      refine Or.inr ?_
      have hlen := congrArg List.length hpq
      simp [List.length_append] at hlen
      have hp' : p' = [] := hlen.1
      subst hp'
      simp at hpq
      simp [hpq.1]
  rcases hcase with hc | hc <;> subst hc <;>
    simp [cntIndent, cntDedent, List.countP_cons]

/-- The end-of-input flush satisfies the invariant at the stack's
remaining depth. -/
theorem lexInv_flush {V : Type} (v : V) (ind : List Nat) (line col : Nat) :
    lexInv (ind.length - 1) (flushToks v ind line col) := by
  have h := lexInv_dedents v line col (ind.length - 1) (lexInv_eof v line col)
  simpa [flushToks] using h

/-- Fact: `popCount` pops and leaves exactly the original stack's entries. -/
theorem popCount_spec : ∀ (ind : List Nat) (indent : Nat),
    (popCount ind indent).2.length + (popCount ind indent).1 = ind.length := by
  intro ind
  induction ind with
  | nil => intro indent; simp [popCount]
  | cons a rest ih =>
    intro indent
    cases rest with
    | nil => simp [popCount]
    | cons b rest' =>
      by_cases hgt : a > indent
      · simp only [popCount, if_pos hgt]
        have := ih indent
        simp only [List.length_cons] at this ⊢
        omega
      · simp [popCount, if_neg hgt]

/-- Fact: `popCount` never empties a non-empty stack. -/
theorem popCount_ne_nil : ∀ (ind : List Nat) (indent : Nat), ind ≠ [] →
    (popCount ind indent).2 ≠ [] := by
  intro ind
  induction ind with
  | nil => intro indent h; exact absurd rfl h
  | cons a rest ih =>
    intro indent _
    cases rest with
    | nil => simp [popCount]
    | cons b rest' =>
      by_cases hgt : a > indent
      · simp only [popCount, if_pos hgt]
        exact ih indent (by simp)
      · simp [popCount, if_neg hgt]

/-- The base keyword table never yields a structural token kind. -/
theorem bKeyword_not_structural (s : String) :
    bKeyword s ≠ Ty.INDENT ∧ bKeyword s ≠ Ty.DEDENT := by
  unfold bKeyword
  split <;> try split
  all_goals simp

/-- The mini keyword table never yields a structural token kind. -/
theorem mKeyword_not_structural (s : String) :
    mKeyword s ≠ Ty.INDENT ∧ mKeyword s ≠ Ty.DEDENT := by
  unfold mKeyword
  repeat' split
  all_goals simp

/-- Invariant of the base lexer loop: from any state with a non-empty
indentation stack of depth `d`, the emitted token list satisfies the
structural invariant at slack `d - 1`. -/
theorem bLexGo_inv : ∀ (f : Nat) (cs : List Char) (ind : List Nat) (line col : Nat)
    (als : Bool) (ts : List (Tok BVal)), ind ≠ [] →
    bLexGo f cs ind line col als = some ts → lexInv (ind.length - 1) ts := by
  intro f
  induction f with
  | zero =>
    intro cs ind line col als ts hind h
    simp [bLexGo] at h
  | succ f ih =>
    intro cs ind line col als ts hind h
    have hplain : ∀ (t : Tok BVal) (cs2 : List Char) (ind2 : List Nat) (l2 c2 : Nat)
        (b2 : Bool), ind2 = ind → t.ty ≠ Ty.INDENT → t.ty ≠ Ty.DEDENT →
        (bLexGo f cs2 ind2 l2 c2 b2).map (fun ts' => t :: ts') = some ts →
        lexInv (ind.length - 1) ts := by
      intro t cs2 ind2 l2 c2 b2 hi h1 h2 h'
      subst hi
      obtain ⟨a, ha, hts⟩ := Option.map_eq_some'.mp h'
      subst hts
      exact lexInv_cons_plain h1 h2 (ih _ _ _ _ _ _ hind ha)
    cases cs with
    | nil =>
      simp only [bLexGo] at h
      injection h with h2
      subst h2
      exact lexInv_flush BVal.none ind line col
    | cons c cs' =>
      cases als with
      | true =>
        simp only [bLexGo, if_true] at h
        rcases hti : takeIndent (c :: cs') with ⟨indent, k, rest⟩
        rw [hti] at h
        dsimp only at h
        cases rest with
        | nil =>
          injection h with h2
          subst h2
          exact lexInv_flush BVal.none ind line (col + k)
        | cons d rest' =>
          dsimp only at h
          by_cases hnl : d = '\n'
          · rw [if_pos hnl] at h
            exact ih _ _ _ _ _ _ hind h
          · rw [if_neg hnl] at h
            by_cases hcm : d = '#'
            · rw [if_pos hcm] at h
              rcases htc : takeComment (d :: rest') with ⟨k2, rest2⟩
              rw [htc] at h
              dsimp only at h
              split at h
              · exact ih _ _ _ _ _ _ hind h
              · exact ih _ _ _ _ _ _ hind h
            · rw [if_neg hcm] at h
              by_cases hgt : indent > ind.headD 0
              · rw [if_pos hgt] at h
                obtain ⟨a, ha, hts⟩ := Option.map_eq_some'.mp h
                subst hts
                have hinv := ih _ _ _ _ _ _ (List.cons_ne_nil indent ind) ha
                have hlen : (indent :: ind).length - 1 = (ind.length - 1) + 1 := by
                  have : 0 < ind.length := List.length_pos.mpr hind
                  simp only [List.length_cons]
                  omega
                rw [hlen] at hinv
                exact lexInv_cons_indent rfl hinv
              · rw [if_neg hgt] at h
                by_cases hlt : indent < ind.headD 0
                · rw [if_pos hlt] at h
                  obtain ⟨a, ha, hts⟩ := Option.map_eq_some'.mp h
                  subst hts
                  have hne := popCount_ne_nil ind indent hind
                  have hsp := popCount_spec ind indent
                  have hinv := ih _ _ _ _ _ _ hne ha
                  have hres := lexInv_dedents (V := BVal) BVal.none line 1
                    (popCount ind indent).1 hinv
                  have harith : (popCount ind indent).2.length - 1 + (popCount ind indent).1
                      = ind.length - 1 := by
                    have hpos : 0 < (popCount ind indent).2.length :=
                      List.length_pos.mpr hne
                    have hpos2 : 0 < ind.length := List.length_pos.mpr hind
                    omega
                  rw [harith] at hres
                  exact hres
                · rw [if_neg hlt] at h
                  exact ih _ _ _ _ _ _ hind h
      | false =>
        simp only [bLexGo, if_false] at h
        by_cases hws : c = ' ' ∨ c = '\t'
        · rw [if_pos hws] at h
          exact ih _ _ _ _ _ _ hind h
        · rw [if_neg hws] at h
          by_cases hnl : c = '\n'
          · rw [if_pos hnl] at h
            exact hplain _ _ _ _ _ _ rfl (by simp) (by simp) h
          · rw [if_neg hnl] at h
            by_cases hcm : c = '#'
            · rw [if_pos hcm] at h
              exact ih _ _ _ _ _ _ hind h
            · rw [if_neg hcm] at h
              by_cases hlp : c = '('
              · rw [if_pos hlp] at h
                exact hplain _ _ _ _ _ _ rfl (by simp) (by simp) h
              · rw [if_neg hlp] at h
                by_cases hrp : c = ')'
                · rw [if_pos hrp] at h
                  exact hplain _ _ _ _ _ _ rfl (by simp) (by simp) h
                · rw [if_neg hrp] at h
                  by_cases hco : c = ':'
                  · rw [if_pos hco] at h
                    exact hplain _ _ _ _ _ _ rfl (by simp) (by simp) h
                  · rw [if_neg hco] at h
                    by_cases hcma : c = ','
                    · rw [if_pos hcma] at h
                      exact hplain _ _ _ _ _ _ rfl (by simp) (by simp) h
                    · rw [if_neg hcma] at h
                      by_cases hq : c = '"' ∨ c = '\''
                      · rw [if_pos hq] at h
                        exact hplain _ _ _ _ _ _ rfl (by simp) (by simp) h
                      · rw [if_neg hq] at h
                        by_cases hdig : isDigitC c = true ∨ (c = '-' ∧ isDigitC (cs'.headD ' ') = true)
                        · rw [if_pos hdig] at h
                          split at h
                          · split at h
                            · exact hplain _ _ _ _ _ _ rfl (by simp) (by simp) h
                            · exact hplain _ _ _ _ _ _ rfl (by simp) (by simp) h
                          · exact hplain _ _ _ _ _ _ rfl (by simp) (by simp) h
                        · rw [if_neg hdig] at h
                          by_cases hal : isAlphaC c = true ∨ c = '_'
                          · rw [if_pos hal] at h
                            refine hplain _ _ _ _ _ _ rfl ?_ ?_ h
                            · exact (bKeyword_not_structural _).1
                            · exact (bKeyword_not_structural _).2
                          · rw [if_neg hal] at h
                            exact ih _ _ _ _ _ _ hind h

/-- Invariant of the mini lexer loop (for runs that return normally):
same structural invariant as the base lexer. -/
theorem mLexGo_inv : ∀ (f : Nat) (cs : List Char) (ind : List Nat) (line col : Nat)
    (als : Bool) (ts : List (Tok MVal)), ind ≠ [] →
    mLexGo f cs ind line col als = .ok ts → lexInv (ind.length - 1) ts := by
  intro f
  induction f with
  | zero =>
    intro cs ind line col als ts hind h
    simp [mLexGo] at h
  | succ f ih =>
    intro cs ind line col als ts hind h
    have hplain : ∀ (t : Tok MVal) (cs2 : List Char) (ind2 : List Nat) (l2 c2 : Nat)
        (b2 : Bool), ind2 = ind → t.ty ≠ Ty.INDENT → t.ty ≠ Ty.DEDENT →
        (mLexGo f cs2 ind2 l2 c2 b2).map (fun ts' => t :: ts') = .ok ts →
        lexInv (ind.length - 1) ts := by
      intro t cs2 ind2 l2 c2 b2 hi h1 h2 h'
      subst hi
      obtain ⟨a, ha, hts⟩ := exceptMap_eq_ok.mp h'
      subst hts
      exact lexInv_cons_plain h1 h2 (ih _ _ _ _ _ _ hind ha)
    cases cs with
    | nil =>
      simp only [mLexGo] at h
      injection h with h2
      subst h2
      exact lexInv_flush MVal.none ind line col
    | cons c cs' =>
      cases als with
      | true =>
        simp only [mLexGo] at h
        rcases hti : takeIndent (c :: cs') with ⟨indent, k, rest⟩
        rw [hti] at h
        dsimp only at h
        cases rest with
        | nil =>
          injection h with h2
          subst h2
          exact lexInv_flush MVal.none ind line (col + k)
        | cons d rest' =>
          dsimp only at h
          by_cases hnl : d = '\n'
          · rw [if_pos hnl] at h
            exact ih _ _ _ _ _ _ hind h
          · rw [if_neg hnl] at h
            by_cases hcm : d = '#'
            · rw [if_pos hcm] at h
              rcases htc : takeComment (d :: rest') with ⟨k2, rest2⟩
              rw [htc] at h
              dsimp only at h
              split at h
              · exact ih _ _ _ _ _ _ hind h
              · exact ih _ _ _ _ _ _ hind h
            · rw [if_neg hcm] at h
              by_cases hgt : indent > ind.headD 0
              · rw [if_pos hgt] at h
                obtain ⟨a, ha, hts⟩ := exceptMap_eq_ok.mp h
                subst hts
                have hinv := ih _ _ _ _ _ _ (List.cons_ne_nil indent ind) ha
                have hlen : (indent :: ind).length - 1 = (ind.length - 1) + 1 := by
                  have : 0 < ind.length := List.length_pos.mpr hind
                  simp only [List.length_cons]
                  omega
                rw [hlen] at hinv
                exact lexInv_cons_indent rfl hinv
              · rw [if_neg hgt] at h
                by_cases hlt : indent < ind.headD 0
                · rw [if_pos hlt] at h
                  by_cases hmis : (popCount ind indent).2.headD 0 ≠ indent
                  · rw [if_pos hmis] at h
                    exact absurd h (by simp)
                  · rw [if_neg hmis] at h
                    obtain ⟨a, ha, hts⟩ := exceptMap_eq_ok.mp h
                    subst hts
                    have hne := popCount_ne_nil ind indent hind
                    have hsp := popCount_spec ind indent
                    have hinv := ih _ _ _ _ _ _ hne ha
                    have hres := lexInv_dedents (V := MVal) MVal.none line 1
                      (popCount ind indent).1 hinv
                    have harith : (popCount ind indent).2.length - 1 +
                        (popCount ind indent).1 = ind.length - 1 := by
                      have hpos : 0 < (popCount ind indent).2.length :=
                        List.length_pos.mpr hne
                      have hpos2 : 0 < ind.length := List.length_pos.mpr hind
                      omega
                    rw [harith] at hres
                    exact hres
                · rw [if_neg hlt] at h
                  exact ih _ _ _ _ _ _ hind h
      | false =>
        simp only [mLexGo] at h
        by_cases hws : c = ' ' ∨ c = '\t'
        · rw [if_pos hws] at h
          exact ih _ _ _ _ _ _ hind h
        · rw [if_neg hws] at h
          by_cases hnl : c = '\n'
          · rw [if_pos hnl] at h
            exact hplain _ _ _ _ _ _ rfl (by simp) (by simp) h
          · rw [if_neg hnl] at h
            by_cases hcm : c = '#'
            · rw [if_pos hcm] at h
              exact ih _ _ _ _ _ _ hind h
            · rw [if_neg hcm] at h
              by_cases hlp : c = '('
              · rw [if_pos hlp] at h
                exact hplain _ _ _ _ _ _ rfl (by simp) (by simp) h
              · rw [if_neg hlp] at h
                by_cases hrp : c = ')'
                · rw [if_pos hrp] at h
                  exact hplain _ _ _ _ _ _ rfl (by simp) (by simp) h
                · rw [if_neg hrp] at h
                  by_cases hco : c = ':'
                  · rw [if_pos hco] at h
                    exact hplain _ _ _ _ _ _ rfl (by simp) (by simp) h
                  · rw [if_neg hco] at h
                    by_cases hcma : c = ','
                    · rw [if_pos hcma] at h
                      exact hplain _ _ _ _ _ _ rfl (by simp) (by simp) h
                    · rw [if_neg hcma] at h
                      by_cases hdig : isDigitC c = true ∨ (c = '-' ∧ isDigitC (cs'.headD ' ') = true)
                      · rw [if_pos hdig] at h
                        exact hplain _ _ _ _ _ _ rfl (by simp) (by simp) h
                      · rw [if_neg hdig] at h
                        by_cases hal : isAlphaC c = true ∨ c = '_'
                        · rw [if_pos hal] at h
                          refine hplain _ _ _ _ _ _ rfl ?_ ?_ h
                          · exact (mKeyword_not_structural _).1
                          · exact (mKeyword_not_structural _).2
                        · rw [if_neg hal] at h
                          exact ih _ _ _ _ _ _ hind h

/-! ### Lemmas: while-loop cap boundary and if-branch selection -/

/-- One-step unfolding of `execWhileGo`. -/
theorem execWhileGo_eq {σ : Type u} (runBody evalCond : MSt σ → MRes σ)
    (max rem : Nat) (st : MSt σ) :
    execWhileGo runBody evalCond max rem st =
      match evalCond st with
      | (.error e, st1) => (.error e, st1)
      | (.ok v, st1) =>
        if mTruthy v then
          match rem with
          | 0 => (.error (.iterLimit max), st1)
          | rem'+1 =>
            if st1.stopped then (.ok .undef, st1)
            else
              match runBody st1 with
              | (.error e, st2) => (.error e, st2)
              | (.ok _, st2) => execWhileGo runBody evalCond max rem' st2
        else
          match rem with
          | 0 => (.error (.iterLimit max), st1)
          | _+1 => (.ok .undef, st1) := by
  rw [execWhileGo.eq_def]

/-- The while loop, run from a state from which the condition holds for
exactly `n` body passes (stop flag clear throughout) and then evaluates
to a falsy value: with `rem` remaining allowed iterations, the loop
completes normally when `n < rem` and raises the iteration-limit
failure when `n = rem` — even though the condition became false. -/
theorem execWhileGo_of_iters {σ : Type u} (runBody evalCond : MSt σ → MRes σ)
    (max : Nat) : ∀ (n rem : Nat) (st sn sfin : MSt σ) (v : MRVal),
    whileIters runBody evalCond n st = some sn →
    evalCond sn = (.ok v, sfin) → mTruthy v = false → n ≤ rem →
    execWhileGo runBody evalCond max rem st =
      (if rem = n then (.error (.iterLimit max), sfin) else (.ok .undef, sfin)) := by
  intro n
  induction n with
  | zero =>
    intro rem st sn sfin v hchain hcond hfalse _
    have hst : st = sn := by simpa [whileIters] using hchain
    subst hst
    rw [execWhileGo_eq, hcond]
    dsimp only
    rw [hfalse]
    cases rem with
    | zero => simp
    | succ rem' => simp
  | succ n ihn =>
    intro rem st sn sfin v hchain hcond hfalse hle
    simp only [whileIters] at hchain
    rcases hev : evalCond st with ⟨r, st1⟩
    rw [hev] at hchain
    cases r with
    | error e => simp at hchain
    | ok v1 =>
      dsimp only at hchain
      by_cases hc : mTruthy v1 = true ∧ st1.stopped = false
      · rw [if_pos hc] at hchain
        rcases hrb : runBody st1 with ⟨rb, st2⟩
        rw [hrb] at hchain
        cases rb with
        | error e => simp at hchain
        | ok w =>
          dsimp only at hchain
          cases rem with
          | zero => omega
          | succ rem' =>
            rw [execWhileGo_eq, hev]
            dsimp only
            rw [hc.1]
            simp only [if_true]
            rw [hc.2]
            simp only [Bool.false_eq_true, if_false]
            rw [hrb]
            dsimp only
            have hres := ihn rem' st2 sn sfin v hchain hcond hfalse (by omega)
            rw [hres]
            by_cases hrn : rem' = n
            · simp [hrn]
            · simp [hrn]
      · rw [if_neg hc] at hchain
        simp at hchain

/-- The elif cascade runs exactly the body selected by the spec-side
selector `specSelectElse`, and nothing when none is selected. -/
theorem execElifsGo_single {σ : Type u} (evalCondE : MExpr → MSt σ → MRes σ)
    (runBlock : List MStmt → MSt σ → MRes σ) (els : Option (List MStmt)) :
    ∀ (elifs : List (MExpr × List MStmt)) (st : MSt σ),
    execElifsGo evalCondE runBlock els elifs st =
      match specSelectElse evalCondE els elifs st with
      | (.error e, st') => (.error e, st')
      | (.ok (some b), st') => runBlock b st'
      | (.ok none, st') => (.ok .undef, st') := by
  intro elifs
  induction elifs with
  | nil =>
    intro st
    cases els <;> simp [execElifsGo, specSelectElse]
  | cons cb rest ih =>
    intro st
    rcases cb with ⟨c, b⟩
    simp only [execElifsGo, specSelectElse]
    rcases hev : evalCondE c st with ⟨r, st1⟩
    cases r with
    | error e => rfl
    | ok v =>
      dsimp only
      by_cases hv : mTruthy v = true
      · rw [hv]
        simp
      · rw [Bool.of_not_eq_true hv]
        simp only [Bool.false_eq_true, if_false]
        exact ih st1

/-- Fact: `executeIfStatement` runs exactly the branch body selected by the
spec-side selector `specIfSelect` (primary condition, then elif
cascade, then else): at most one branch body ever executes. -/
theorem execIfGo_single {σ : Type u} (evalCondE : MExpr → MSt σ → MRes σ)
    (runBlock : List MStmt → MSt σ → MRes σ) (cond : MExpr) (body : List MStmt)
    (elifs : List (MExpr × List MStmt)) (els : Option (List MStmt)) (st : MSt σ) :
    execIfGo evalCondE runBlock cond body elifs els st =
      match specIfSelect evalCondE cond body elifs els st with
      | (.error e, st') => (.error e, st')
      | (.ok (some b), st') => runBlock b st'
      | (.ok none, st') => (.ok .undef, st') := by
  simp only [execIfGo, specIfSelect]
  rcases hev : evalCondE cond st with ⟨r, st1⟩
  cases r with
  | error e => rfl
  | ok v =>
    dsimp only
    by_cases hv : mTruthy v = true
    · rw [hv]
      simp
    · rw [Bool.of_not_eq_true hv]
      simp only [Bool.false_eq_true, if_false]
      exact execElifsGo_single evalCondE runBlock els elifs st1

/-- A while loop whose condition is truthy at every reachable state
exhausts its remaining allowance and raises the iteration-limit
failure, advancing the state once per iteration. -/
theorem execWhileGo_always {σ : Type u} (rb ec : MSt σ → MRes σ) (g : Nat → MSt σ)
    (hstop : ∀ k, (g k).stopped = false)
    (hec : ∀ k, ec (g k) = (.ok (.bool true), g k))
    (hrb : ∀ k, rb (g k) = (.ok .undef, g (k + 1))) :
    ∀ (max rem k : Nat),
      execWhileGo rb ec max rem (g k) = (.error (.iterLimit max), g (k + rem)) := by
  intro max rem
  induction rem with
  | zero =>
    intro k
    rw [execWhileGo_eq, hec k]
    dsimp only [mTruthy]
    simp
  | succ rem' ih =>
    intro k
    rw [execWhileGo_eq, hec k]
    dsimp only [mTruthy]
    simp only [if_true]
    rw [hstop k]
    simp only [Bool.false_eq_true, if_false]
    rw [hrb k]
    dsimp only
    rw [ih (k + 1)]
    have harith : k + 1 + rem' = k + (rem' + 1) := by omega
    rw [harith]

/-- Unfolding of a one-statement while-loop program through
`MiniExecutor.execute` down to the loop itself. -/
theorem mExecute_single_while {σ : Type u} (f max : Nat) (cmds : MCmds σ)
    (cond : MExpr) (body : List MStmt) (line : Nat) (host : σ) :
    mExecute (f + 1 + 1) max cmds [.whileL cond body line] host =
      (match execWhileGo (fun st' => execBlockM f max cmds body st')
          (fun st' => evalCondM f cmds cond st') max max ⟨host, false⟩ with
       | (.error e, st1) => (.error e, st1)
       | (.ok _, st1) => (.ok .undef, st1)) := by
  rfl

/-! ### Claim theorems -/

/-- C3: running the script `while can_move_right():\n    move_right()`
against a command table in which `can_move_right` always returns true
(and `move_right` counts its invocations in the host state), the mini
pipeline parses it to a one-statement WHILE program, and execution with
the default `maxIterations = 100` rejects with the iteration-limit
failure, with `move_right` having been invoked exactly 100 times before
the failure (final host counter = 100). -/
theorem c3_while_cap_exact :
    mParseScript 60 "while can_move_right():\n    move_right()" =
      .ok (.ok [.whileL (.call "can_move_right" [] 1) [.call "move_right" [] 2] 1]) ∧
    mExecute 8 100 stepCmds
      [.whileL (.call "can_move_right" [] 1) [.call "move_right" [] 2] 1] 0 =
      (.error (.iterLimit 100), ⟨100, false⟩) := by
  constructor
  · rfl
  · have h1 := mExecute_single_while 6 100 stepCmds (.call "can_move_right" [] 1)
      [.call "move_right" [] 2] 1 (0 : Nat)
    have hw := execWhileGo_always
      (fun st' => execBlockM 6 100 stepCmds [.call "move_right" [] 2] st')
      (fun st' => evalCondM 6 stepCmds (.call "can_move_right" [] 1) st')
      (fun k => (⟨k, false⟩ : MSt Nat))
      (fun _ => rfl) (fun _ => rfl) (fun _ => rfl) 100 100 0
    rw [hw] at h1
    exact h1

/-- C7: the source `repeat(3):\n    move_right()` parses to a REPEAT
node with count 3 and a body of exactly one statement, and executing
that node against a command table recording call counts invokes
`move_right` exactly 3 times (final counter 3), in order, with a pacing
delay event between (and after) consecutive invocations, as the event
trace shows. -/
theorem c7_repeat_three :
    bParseScript 60 "repeat(3):\n    move_right()" =
      some (.ok [.repeatS 3 [.call "move_right" [] 2] 1]) ∧
    bExecute 20 rightCmds [.repeatS 3 [.call "move_right" [] 2] 1] 0 =
      (.ok .undef, ⟨3, [.printRepeatInfo 3,
        .invoke "move_right" [], .delay 200,
        .invoke "move_right" [], .delay 200,
        .invoke "move_right" [], .delay 200]⟩) := by
  exact ⟨rfl, rfl⟩

/-- C6: at most one branch body of an IF statement ever executes.
First conjunct: `executeIfStatement` (as `execIfGo`, over arbitrary
condition evaluation and block running) equals running exactly the
branch selected by the spec-side selector `specIfSelect` (primary
condition first, then the elif conditions in declared order, then the
else body), and nothing when no branch is selected.  Second conjunct:
`executeStatement` on an IF node is exactly that cascade.  Third
conjunct: the script `if at_goal():\n    win()\nelse:\n    lose()`
against a table where `at_goal` is false invokes `lose` once and never
invokes `win` (final host counters: win 0, lose 1). -/
theorem c6_if_single_branch :
    (∀ (σ : Type) (evalCondE : MExpr → MSt σ → MRes σ)
      (runBlock : List MStmt → MSt σ → MRes σ) (cond : MExpr) (body : List MStmt)
      (elifs : List (MExpr × List MStmt)) (els : Option (List MStmt)) (st : MSt σ),
      execIfGo evalCondE runBlock cond body elifs els st =
        match specIfSelect evalCondE cond body elifs els st with
        | (.error e, st') => (.error e, st')
        | (.ok (some b), st') => runBlock b st'
        | (.ok none, st') => (.ok .undef, st')) ∧
    (∀ (σ : Type) (f max : Nat) (cmds : MCmds σ) (cond : MExpr) (body : List MStmt)
      (elifs : List (MExpr × List MStmt)) (els : Option (List MStmt)) (line : Nat)
      (host : σ),
      execStmtM (f + 1) max cmds (.ifS cond body elifs els line) ⟨host, false⟩ =
        execIfGo (fun c st' => evalCondM f cmds c st')
          (fun l st' => execBlockM f max cmds l st') cond body elifs els ⟨host, false⟩) ∧
    mParseScript 60 "if at_goal():\n    win()\nelse:\n    lose()" =
      .ok (.ok [.ifS (.call "at_goal" [] 1) [.call "win" [] 2] []
        (some [.call "lose" [] 4]) 1]) ∧
    mExecute 20 100 ifCmds
      [.ifS (.call "at_goal" [] 1) [.call "win" [] 2] [] (some [.call "lose" [] 4]) 1]
      ((0, 0) : Nat × Nat) =
      (.ok .undef, ⟨(0, 1), false⟩) := by
  refine ⟨?_, ?_, rfl, rfl⟩
  · intro σ evalCondE runBlock cond body elifs els st
    exact execIfGo_single evalCondE runBlock cond body elifs els st
  · intro σ f max cmds cond body elifs els line host
    rfl

/-- C2 (amended): the while loop completes normally exactly when its
condition becomes falsy after strictly fewer than `maxIterations`
completed body passes; when the condition becomes falsy after exactly
`maxIterations` passes, the iteration-limit failure is raised anyway.
First conjunct ties `executeStatement` on a WHILE node to the loop
`execWhileGo` with a full allowance of `maxIterations`; second conjunct
is the boundary: after `n` truthy-condition body passes
(`whileIters`) and a falsy condition evaluation, the loop returns
normally iff `n < maxIterations`, and raises the iteration-limit error
at `n = maxIterations`. -/
theorem c2_while_cap_boundary :
    (∀ (σ : Type) (f max : Nat) (cmds : MCmds σ) (cond : MExpr) (body : List MStmt)
      (line : Nat) (host : σ),
      execStmtM (f + 1) max cmds (.whileL cond body line) ⟨host, false⟩ =
        execWhileGo (fun st' => execBlockM f max cmds body st')
          (fun st' => evalCondM f cmds cond st') max max ⟨host, false⟩) ∧
    (∀ (σ : Type) (runBody evalCond : MSt σ → MRes σ) (max n : Nat)
      (st sn sfin : MSt σ) (v : MRVal),
      whileIters runBody evalCond n st = some sn →
      evalCond sn = (.ok v, sfin) → mTruthy v = false →
      (n < max → execWhileGo runBody evalCond max max st = (.ok .undef, sfin)) ∧
      (n = max →
        execWhileGo runBody evalCond max max st = (.error (.iterLimit max), sfin))) := by
  refine ⟨fun σ f max cmds cond body line host => rfl, ?_⟩
  intro σ runBody evalCond max n st sn sfin v hchain hcond hfalse
  constructor
  · intro hlt
    have h := execWhileGo_of_iters runBody evalCond max n max st sn sfin v hchain hcond
      hfalse (by omega)
    rw [if_neg (by omega)] at h
    exact h
  · intro heq
    subst heq
    have h := execWhileGo_of_iters runBody evalCond n n n st sn sfin v hchain hcond
      hfalse (Nat.le_refl n)
    rw [if_pos rfl] at h
    exact h

/-- Witness for C2 (amended): a loop whose condition becomes false
after exactly one body pass, with allowance 2, completes normally. -/
theorem c2_while_cap_boundary_witness :
    whileIters (σ := Nat) (fun st => (.ok .undef, ⟨st.host + 1, st.stopped⟩))
      (fun st => (.ok (.bool (decide (st.host < 1))), st)) 1 ⟨0, false⟩ =
      some ⟨1, false⟩ ∧
    (((.ok (.bool (decide ((1 : Nat) < 1))), (⟨1, false⟩ : MSt Nat)) : MRes Nat) =
      (.ok (.bool false), ⟨1, false⟩)) ∧
    mTruthy (.bool false) = false ∧
    1 < 2 ∧
    execWhileGo (σ := Nat) (fun st => (.ok .undef, ⟨st.host + 1, st.stopped⟩))
      (fun st => (.ok (.bool (decide (st.host < 1))), st)) 2 2 ⟨0, false⟩ =
      (.ok .undef, ⟨1, false⟩) := by
  refine ⟨rfl, rfl, rfl, by omega, ?_⟩
  exact (c2_while_cap_boundary.2 Nat
    (fun st => (.ok .undef, ⟨st.host + 1, st.stopped⟩))
    (fun st => (.ok (.bool (decide (st.host < 1))), st))
    2 1 ⟨0, false⟩ ⟨1, false⟩ ⟨1, false⟩ (.bool false) rfl rfl rfl).1 (by omega)

/-- Counterexample to C2 as stated: on a 3-wide grid with
`maxIterations = 2`, the loop `while can_move_right(): move_right()`
has its condition become false after exactly 2 = `maxIterations`
completed iterations (the snake reaches the right edge: final
`moves = 2`, `can_move_right` false), yet execution rejects with the
iteration-limit failure instead of completing normally. -/
theorem c2_counterexample :
    mParseScript 60 "while can_move_right():\n    move_right()" =
      .ok (.ok [.whileL (.call "can_move_right" [] 1) [.call "move_right" [] 2] 1]) ∧
    mExecute 8 2 snakeCmds
      [.whileL (.call "can_move_right" [] 1) [.call "move_right" [] 2] 1] (mkSnake 3) =
      (.error (.iterLimit 2), ⟨⟨3, 2, 0, 2, 2, 2, 50⟩, false⟩) ∧
    Snake.canMoveRight ⟨3, 2, 0, 2, 2, 2, 50⟩ = false ∧
    Snake.moves ⟨3, 2, 0, 2, 2, 2, 50⟩ = 2 := by
  exact ⟨rfl, rfl, rfl, rfl⟩

/-- C4 (amended): under the base `Executor`, a statement-position call
whose name is absent from the command table reports the NameError
diagnostic and the help hint through the output sink, produces no
value, and execution continues with the subsequent sibling statements
exactly as if they were run from the post-diagnostic state (first
conjunct).  The base pipeline on `fly()\nmove_right()` with a table
lacking `fly` completes normally, printing the two diagnostics and
still invoking `move_right` (second and third conjuncts).  Under the
`MiniExecutor`, by contrast, an unknown command aborts the run (see
the counterexample). -/
theorem c4_unknown_call_continues :
    (∀ (σ : Type) (cmds : BCmds σ) (f : Nat) (name : String) (args : List BExpr)
      (line : Nat) (rest : List BStmt) (host : σ) (ev : List BEvent),
      cmds name = none →
      execProgB (f + 1 + 1) cmds (.call name args line :: rest) ⟨host, ev⟩ =
        execProgB (f + 1) cmds rest
          ⟨host, ev ++ [.printNameError name, .printHelpHint]⟩) ∧
    bParseScript 60 "fly()\nmove_right()" =
      some (.ok [.call "fly" [] 1, .call "move_right" [] 2]) ∧
    bExecute 20 rightCmds [.call "fly" [] 1, .call "move_right" [] 2] 0 =
      (.ok .undef, ⟨1, [.printNameError "fly", .printHelpHint,
        .invoke "move_right" []]⟩) := by
  refine ⟨?_, rfl, rfl⟩
  intro σ cmds f name args line rest host ev h
  simp only [execProgB, execStmtB, execCallB, h]

/-- Witness for C4 (amended): the table of the repeat scenario lacks
`fly`, and the program `fly(); move_right()` steps to its tail after
the diagnostics. -/
theorem c4_unknown_call_continues_witness :
    rightCmds "fly" = none ∧
    execProgB (1 + 1 + 1) rightCmds [.call "fly" [] 1, .call "move_right" [] 2]
      ⟨(0 : Nat), []⟩ =
      execProgB (1 + 1) rightCmds [.call "move_right" [] 2]
        ⟨0, [.printNameError "fly", .printHelpHint]⟩ := by
  refine ⟨rfl, ?_⟩
  exact c4_unknown_call_continues.1 Nat rightCmds 1 "fly" [] 1
    [.call "move_right" [] 2] 0 [] rfl

/-- Counterexample to C4 as stated: the repository's `MiniExecutor`
(the second of the two executors the claim cites) throws
`Unknown command: fly` to the caller of `execute` for a
statement-position call to an absent name, and the subsequent sibling
statement never executes (host counter stays 0). -/
theorem c4_counterexample :
    mParseScript 60 "fly()\nmove_right()" =
      .ok (.ok [.call "fly" [] 1, .call "move_right" [] 2]) ∧
    mExecute 20 100 stepCmds [.call "fly" [] 1, .call "move_right" [] 2] 0 =
      (.error (.unknownCommand "fly"), ⟨0, false⟩) := by
  exact ⟨rfl, rfl⟩

/-- C5 (amended): whenever `parseRepeat` succeeds, the REPEAT node's
count is `Math.floor` of the NUMBER token following `repeat(` —
flooring toward negative infinity, not truncation toward zero (first
conjunct).  Concretely, a count of 3.9 yields 3 but a count of -2.5
yields -3 (second conjunct); a non-NUMBER count is a parse failure
(third conjunct); and the mini parser's `range` bound is lexed as an
integer, so a fractional bound is a parse failure rather than a
truncation (fourth conjunct). -/
theorem c5_repeat_count_floor :
    (∀ (f : Nat) (toks : List (Tok BVal)) (pos : Nat) (stmt : BStmt) (p : Nat),
      pRepeat (f + 1) toks pos = .ok (stmt, p) →
      ∃ body, stmt = .repeatS (jsFloor (bNumVal (peekTok BVal.none toks (pos + 1 + 1)).val))
        body (peekTok BVal.none toks pos).line) ∧
    bParseScript 60 "repeat(3.9):\n    x()\n" =
      some (.ok [.repeatS 3 [.call "x" [] 2] 1]) ∧
    bParseScript 60 "repeat(x):\n    y()\n" =
      some (.error (.expected "Expected number in repeat" Ty.IDENTIFIER 1 8)) ∧
    mParseScript 60 "for i in range(3.9):\n    move_right()" =
      .ok (.error (.expected "Expected \")\" after range argument" Ty.NUMBER 1 18)) := by
  refine ⟨?_, rfl, rfl, rfl⟩
  intro f toks pos stmt p h
  simp only [pRepeat, expectT] at h
  by_cases h1 : (peekTok BVal.none toks (pos + 1)).ty = Ty.LPAREN
  · simp only [h1, if_true] at h
    by_cases h2 : (peekTok BVal.none toks (pos + 1 + 1)).ty = Ty.NUMBER
    · simp only [h2, if_true] at h
      by_cases h3 : (peekTok BVal.none toks (pos + 1 + 1 + 1)).ty = Ty.RPAREN
      · simp only [h3, if_true] at h
        by_cases h4 : (peekTok BVal.none toks (pos + 1 + 1 + 1 + 1)).ty = Ty.COLON
        · simp only [h4, if_true] at h
          by_cases h5 : peekTy BVal.none toks
              (skipNLs toks (pos + 1 + 1 + 1 + 1 + 1)) = Ty.INDENT
          · simp only [h5, if_true] at h
            rcases hb : pBlock f toks (skipNLs toks (pos + 1 + 1 + 1 + 1 + 1) + 1) with
              e | bp
            · rw [hb] at h
              simp at h
            · rw [hb] at h
              dsimp only at h
              injection h with h
              injection h with hstmt hp
              exact ⟨bp.1, hstmt.symm⟩
          · simp only [h5, if_false] at h
            simp at h
        · simp only [h4, if_false] at h
          simp at h
      · simp only [h3, if_false] at h
        simp at h
    · simp only [h2, if_false] at h
      simp at h
  · simp only [h1, if_false] at h
    simp at h

/-- Witness for C5 (amended): on the tokens of
`repeat(3.9):\n    x()\n`, `parseRepeat` succeeds and its count is the
floor of the NUMBER token 3.9, namely 3. -/
theorem c5_repeat_count_floor_witness :
    pRepeat 59 ((bTokenize "repeat(3.9):\n    x()\n").getD []) 0 =
      .ok (.repeatS 3 [.call "x" [] 2] 1, 12) ∧
    ∃ body, BStmt.repeatS 3 [.call "x" [] 2] 1 =
      .repeatS (jsFloor (bNumVal (peekTok BVal.none
          ((bTokenize "repeat(3.9):\n    x()\n").getD []) (0 + 1 + 1)).val)) body
        (peekTok BVal.none ((bTokenize "repeat(3.9):\n    x()\n").getD []) 0).line := by
  refine ⟨rfl, ?_⟩
  exact c5_repeat_count_floor.1 58 ((bTokenize "repeat(3.9):\n    x()\n").getD []) 0
    (.repeatS 3 [.call "x" [] 2] 1) 12 rfl

/-- Counterexample to C5 as stated: a count of -2.5 is stored as -3
(`Math.floor`), not as the claimed truncation toward zero -2. -/
theorem c5_counterexample :
    bParseScript 60 "repeat(-2.5):\n    move_right()\n" =
      some (.ok [.repeatS (-3) [.call "move_right" [] 2] 1]) ∧
    (-3 : Int) ≠ -2 := by
  exact ⟨rfl, by decide⟩

/-- C8: whenever the colon of an `if` statement is not followed (after
newlines) by an INDENT token, `parseIf` raises a SyntaxError carrying
the line of the `if` statement's own token (first conjunct, for the
base parser); concretely, both pipelines reject
`if at_goal():\nwin()` — whose second line is at the same indentation —
with the missing-indented-block error at line 1, and no Program is
produced (second and third conjuncts). -/
theorem c8_missing_indent_block :
    (∀ (f : Nat) (toks : List (Tok BVal)) (pos : Nat) (cond : BExpr) (p1 : Nat)
      (t2 : Tok BVal) (p2 : Nat),
      pCondition f toks (pos + 1) = .ok (cond, p1) →
      expectT BVal.none toks p1 Ty.COLON "Expected \":\" after if condition" =
        .ok (t2, p2) →
      peekTy BVal.none toks (skipNLs toks p2) ≠ Ty.INDENT →
      pIf (f + 1) toks pos =
        .error (.expectedBlock "if" (peekTok BVal.none toks pos).line)) ∧
    bParseScript 60 "if at_goal():\nwin()" =
      some (.error (.expectedBlock "if" 1)) ∧
    mParseScript 60 "if at_goal():\nwin()" =
      .ok (.error (.expectedBlock "if" 1)) := by
  refine ⟨?_, rfl, rfl⟩
  intro f toks pos cond p1 t2 p2 hcond hcolon hind
  simp only [pIf, hcond, hcolon]
  rw [if_neg hind]

/-- Witness for C8: the tokens of `if at_goal():\nwin()` satisfy the
hypotheses (condition parses, colon present, no INDENT after the
newline), and `parseIf` reports the error at line 1. -/
theorem c8_missing_indent_block_witness :
    pCondition 59 ((bTokenize "if at_goal():\nwin()").getD []) (0 + 1) =
      .ok (.call "at_goal" [] 1, 4) ∧
    expectT BVal.none ((bTokenize "if at_goal():\nwin()").getD []) 4 Ty.COLON
      "Expected \":\" after if condition" = .ok (⟨Ty.COLON, BVal.none, 1, 13⟩, 5) ∧
    peekTy BVal.none ((bTokenize "if at_goal():\nwin()").getD [])
      (skipNLs ((bTokenize "if at_goal():\nwin()").getD []) 5) ≠ Ty.INDENT ∧
    pIf 60 ((bTokenize "if at_goal():\nwin()").getD []) 0 =
      .error (.expectedBlock "if"
        (peekTok BVal.none ((bTokenize "if at_goal():\nwin()").getD []) 0).line) := by
  refine ⟨rfl, rfl, by decide, ?_⟩
  exact c8_missing_indent_block.1 59 ((bTokenize "if at_goal():\nwin()").getD []) 0
    (.call "at_goal" [] 1) 4 ⟨Ty.COLON, BVal.none, 1, 13⟩ 5 rfl rfl (by decide)

/-- C1 (amended): for scripts whose indented blocks are each opened by
a block construct, `parse(tokenize(source))` succeeds and the PROGRAM
body has exactly one statement per top-level logical statement: the
three-logical-statement script `a()\nrepeat(2):\n    b()\nc()\n` yields
a three-statement body, and the one-logical-line comma chain
`a(), b()\n` yields a single SEQUENCE statement. -/
theorem c1_parse_toplevel_count :
    bParseScript 60 "a()\nrepeat(2):\n    b()\nc()\n" =
      some (.ok [.call "a" [] 1, .repeatS 2 [.call "b" [] 3] 2, .call "c" [] 4]) ∧
    ([BStmt.call "a" [] 1, .repeatS 2 [.call "b" [] 3] 2, .call "c" [] 4].length = 3) ∧
    bParseScript 60 "a(), b()\n" =
      some (.ok [.seq [.call "a" [] 1, .call "b" [] 1]]) ∧
    ([BStmt.seq [.call "a" [] 1, .call "b" [] 1]].length = 1) ∧
    mParseScript 60 "move_right()\nfor i in range(2):\n    move_down()\nmove_left()" =
      .ok (.ok [.call "move_right" [] 1, .forL "i" 2 [.call "move_down" [] 3] 2,
        .call "move_left" [] 4]) ∧
    ([MStmt.call "move_right" [] 1, .forL "i" 2 [.call "move_down" [] 3] 2,
        .call "move_left" [] 4].length = 3) := by
  exact ⟨rfl, rfl, rfl, rfl, rfl, rfl⟩

/-- Counterexample to C1 as stated: the lexer-producible token sequence
of `x()\n    y()\n` (a stray-indented second line) leaves a DEDENT at
top-level statement position.  The parser's main loop (one
`parseStatement` + `skipNewlines` pass, `mainStepPos`) reaches
position 9 after three iterations and then maps position 9 to itself
while the token there is DEDENT (not EOF) — so the loop makes no
progress and `parse` never terminates; with loop fuel 60 the parse is
still running (fuel exhaustion), and no PROGRAM node is ever
produced. -/
theorem c1_counterexample :
    (bTokenize "x()\n    y()\n").isSome = true ∧
    mainStepPos 59 strayToks 0 = some 4 ∧
    mainStepPos 59 strayToks 4 = some 5 ∧
    mainStepPos 59 strayToks 5 = some 9 ∧
    mainStepPos 59 strayToks 9 = some 9 ∧
    peekTy BVal.none strayToks 9 = Ty.DEDENT ∧
    bParse 60 strayToks = .error .fuel ∧
    mParseScript 60 "x()\n    y()\n" = .ok (.error .fuel) := by
  exact ⟨rfl, rfl, rfl, rfl, rfl, rfl, rfl, rfl⟩

/-- C9: every token list the base lexer produces, and every token list
the mini lexer produces without raising, is non-empty, ends with EOF,
has equally many INDENT and DEDENT tokens, and in every prefix the
DEDENT count never exceeds the INDENT count. -/
theorem c9_tokenize_invariants :
    (∀ (src : String) (ts : List (Tok BVal)), bTokenize src = some ts →
      ts ≠ [] ∧ ts.getLast?.map (fun t => t.ty) = some Ty.EOF ∧
      cntIndent ts = cntDedent ts ∧
      (∀ p q, ts = p ++ q → cntDedent p ≤ cntIndent p)) ∧
    (∀ (src : String) (ts : List (Tok MVal)), mTokenize src = .ok ts →
      ts ≠ [] ∧ ts.getLast?.map (fun t => t.ty) = some Ty.EOF ∧
      cntIndent ts = cntDedent ts ∧
      (∀ p q, ts = p ++ q → cntDedent p ≤ cntIndent p)) := by
  constructor
  · intro src ts h
    simp only [bTokenize] at h
    have hinv := bLexGo_inv _ _ _ _ _ _ _ (by simp) h
    obtain ⟨hb, hp, he⟩ := hinv
    simp only [show ([0] : List Nat).length - 1 = 0 from rfl] at hb hp
    refine ⟨lexInv_ne_nil ⟨hb, by simpa using hp, by simpa using he⟩, he, by omega, ?_⟩
    intro p q hpq
    have := hp p q hpq
    omega
  · intro src ts h
    simp only [mTokenize] at h
    have hinv := mLexGo_inv _ _ _ _ _ _ _ (by simp) h
    obtain ⟨hb, hp, he⟩ := hinv
    simp only [show ([0] : List Nat).length - 1 = 0 from rfl] at hb hp
    refine ⟨lexInv_ne_nil ⟨hb, by simpa using hp, by simpa using he⟩, he, by omega, ?_⟩
    intro p q hpq
    have := hp p q hpq
    omega

/-- Witness for C9: both lexers on the script
`if a():\n    b()\nc()` — the returned lists are non-empty, EOF-final,
and INDENT/DEDENT balanced with the prefix property. -/
theorem c9_tokenize_invariants_witness :
    bTokenize "if a():\n    b()\nc()" =
      some ((bTokenize "if a():\n    b()\nc()").getD []) ∧
    ((bTokenize "if a():\n    b()\nc()").getD [] ≠ [] ∧
      ((bTokenize "if a():\n    b()\nc()").getD []).getLast?.map (fun t => t.ty) =
        some Ty.EOF ∧
      cntIndent ((bTokenize "if a():\n    b()\nc()").getD []) =
        cntDedent ((bTokenize "if a():\n    b()\nc()").getD []) ∧
      (∀ p q, (bTokenize "if a():\n    b()\nc()").getD [] = p ++ q →
        cntDedent p ≤ cntIndent p)) := by
  refine ⟨rfl, ?_⟩
  exact c9_tokenize_invariants.1 "if a():\n    b()\nc()"
    ((bTokenize "if a():\n    b()\nc()").getD []) rfl

/-- C10: from any state satisfying the grid invariant
(0 ≤ snakeX ≤ gridSize-1, 0 ≤ snakeY ≤ gridSize-1), each movement
operation is atomic and invariant-preserving: when its guard holds it
moves exactly one cell in its direction, increments `moves` by exactly
one, and the new position still satisfies the invariant; when its
guard fails it throws and returns the state completely unchanged. -/
theorem c10_snake_moves_atomic (s : Snake)
    (hx0 : 0 ≤ s.snakeX) (hx1 : s.snakeX ≤ s.gridSize - 1)
    (hy0 : 0 ≤ s.snakeY) (hy1 : s.snakeY ≤ s.gridSize - 1) :
    ((s.canMoveUp = true →
      s.moveUp = (.ok true, { s with snakeY := s.snakeY - 1, moves := s.moves + 1 }) ∧
      0 ≤ s.snakeY - 1 ∧ s.snakeY - 1 ≤ s.gridSize - 1) ∧
     (s.canMoveUp = false →
      s.moveUp = (.error "Cannot move up: already at the top edge!", s))) ∧
    ((s.canMoveDown = true →
      s.moveDown = (.ok true, { s with snakeY := s.snakeY + 1, moves := s.moves + 1 }) ∧
      0 ≤ s.snakeY + 1 ∧ s.snakeY + 1 ≤ s.gridSize - 1) ∧
     (s.canMoveDown = false →
      s.moveDown = (.error "Cannot move down: already at the bottom edge!", s))) ∧
    ((s.canMoveLeft = true →
      s.moveLeft = (.ok true, { s with snakeX := s.snakeX - 1, moves := s.moves + 1 }) ∧
      0 ≤ s.snakeX - 1 ∧ s.snakeX - 1 ≤ s.gridSize - 1) ∧
     (s.canMoveLeft = false →
      s.moveLeft = (.error "Cannot move left: already at the left edge!", s))) ∧
    ((s.canMoveRight = true →
      s.moveRight = (.ok true, { s with snakeX := s.snakeX + 1, moves := s.moves + 1 }) ∧
      0 ≤ s.snakeX + 1 ∧ s.snakeX + 1 ≤ s.gridSize - 1) ∧
     (s.canMoveRight = false →
      s.moveRight = (.error "Cannot move right: already at the right edge!", s))) := by
  refine ⟨⟨?_, ?_⟩, ⟨?_, ?_⟩, ⟨?_, ?_⟩, ⟨?_, ?_⟩⟩
  · intro hc
    have hy : 0 < s.snakeY := by simpa [Snake.canMoveUp] using hc
    refine ⟨?_, by omega, by omega⟩
    simp [Snake.moveUp, hc]
  · intro hc
    simp [Snake.moveUp, hc]
  · intro hc
    have hy : s.snakeY < s.gridSize - 1 := by simpa [Snake.canMoveDown] using hc
    refine ⟨?_, by omega, by omega⟩
    simp [Snake.moveDown, hc]
  · intro hc
    simp [Snake.moveDown, hc]
  · intro hc
    have hx : 0 < s.snakeX := by simpa [Snake.canMoveLeft] using hc
    refine ⟨?_, by omega, by omega⟩
    simp [Snake.moveLeft, hc]
  · intro hc
    simp [Snake.moveLeft, hc]
  · intro hc
    have hx : s.snakeX < s.gridSize - 1 := by simpa [Snake.canMoveRight] using hc
    refine ⟨?_, by omega, by omega⟩
    simp [Snake.moveRight, hc]
  · intro hc
    simp [Snake.moveRight, hc]

/-- Witness for C10: the freshly constructed 5-wide puzzle satisfies
the invariant, its `moveUp` guard fails leaving the state unchanged,
and its `moveDown` guard holds. -/
theorem c10_snake_moves_atomic_witness :
    (0 ≤ (mkSnake 5).snakeX ∧ (mkSnake 5).snakeX ≤ (mkSnake 5).gridSize - 1 ∧
      0 ≤ (mkSnake 5).snakeY ∧ (mkSnake 5).snakeY ≤ (mkSnake 5).gridSize - 1) ∧
    (mkSnake 5).moveUp = (.error "Cannot move up: already at the top edge!", mkSnake 5) ∧
    (mkSnake 5).moveDown =
      (.ok true,
        { mkSnake 5 with snakeY := (mkSnake 5).snakeY + 1, moves := (mkSnake 5).moves + 1 }) := by
  refine ⟨⟨by decide, by decide, by decide, by decide⟩, ?_, ?_⟩
  · exact ((c10_snake_moves_atomic (mkSnake 5) (by decide) (by decide) (by decide)
      (by decide)).1.2) (by decide)
  · exact (((c10_snake_moves_atomic (mkSnake 5) (by decide) (by decide) (by decide)
      (by decide)).2.1.1) (by decide)).1
